import Mathlib

/-!
Verification of the MongoType BSON traversal engine and its renderers.

This development is a shallow embedding of the C++ sources:
  * src/include/BSONObjectParser.hpp  (BSONParserStackItem, BSONParserStack,
    BSONObjectParser: the depth-first traverser and its context stack)
  * src/include/JSONDump.hpp          (JSON renderer)
  * src/include/BSONObjectTypeDump.hpp (indented tree renderer)
  * src/include/BSONDotNotationDump.hpp (dotted path renderer)
  * src/include/BSONTypeFormatter.hpp, BSONTypeMap.hpp/.cpp, Parameters.hpp
    (type annotation strings)

BSON documents are modelled as finite trees.  A scalar carries its BSON type
code and the literal text the legacy mongo C++ driver would print for its
value (the driver is an external collaborator; its BSONElement::toString
prints "key: value" when includeFieldName is true and just the value text
otherwise).  Machine ints of the C++ are modelled as Lean Int.

The recursive parser is written with an explicit fuel argument (structural
recursion on the fuel); `parse` supplies fuel `sizeFields o + 1`, which is
proved sufficient, so all theorems about `parse` are unconditional.
-/

namespace MongoType

/-- A BSON value: a scalar (with its BSON type code, e.g. 16 = NumberInt, and
the legacy driver's text rendering of the value), an object (ordered list of
(fieldName, value) pairs, in document order), or an array. -/
inductive BSONValue where
  | scalar (typeCode : Int) (valueText : String)
  | object (fields : List (String × BSONValue))
  | array (elems : List BSONValue)

/-- A BSON document object: ordered field list, as stored. -/
abbrev BSONObj := List (String × BSONValue)

/-- A BSONElement of the driver: a field name together with its value. -/
structure BSONElement where
  fieldName : String
  value : BSONValue

/-- Whether a value is a terminal scalar. -/
def BSONValue.isScalar : BSONValue → Bool
  | .scalar _ _ => true
  | _ => false

/-- element.type() of the driver: the BSON type code of a value
(Object = 3, Array = 4, scalars carry their own code). -/
def bsonTypeOf : BSONValue → Int
  | .scalar c _ => c
  | .object _ => 3
  | .array _ => 4

/-- element.toString(false,false) of the legacy driver: the value text alone.
Only scalar elements reach the places where this is used (onElement). -/
def elemValueText (e : BSONElement) : String :=
  match e.value with
  | .scalar _ txt => txt
  | _ => ""

/-- element.toString(true,false) of the legacy driver (also what
operator<< and the implicit string conversion produce): "key: value". -/
def elemFullText (e : BSONElement) : String :=
  e.fieldName ++ (": ") ++ elemValueText e

/-- BSONParserStackItem::ItemType from BSONObjectParser.hpp. -/
inductive ItemType where
  | OBJECT
  | ARRAY
  | ELEMENT
deriving DecidableEq

/-- The tagged union BSONParserStackItem::Item: either a BSONObj pointer or a
BSONElement pointer. -/
inductive ItemPayload where
  | obj (o : BSONObj)
  | elem (e : BSONElement)

/-- BSONParserStackItem: the context-stack entry.  Field names follow the
C++ members (elementIndex/elementCount are the sibling index/count,
arrayIndex/arrayCount describe enclosure in an array, -1/0 when absent). -/
structure StackItem where
  type : ItemType
  payload : ItemPayload
  key : String
  elementIndex : Int
  elementCount : Int
  arrayIndex : Int
  arrayCount : Int

/-- The BSONParserStackItem constructor taking a BSONObj (type = OBJECT). -/
def StackItem.mkObj (o : BSONObj) (key : String)
    (elementIndex elementCount arrayIndex arrayCount : Int) : StackItem :=
  ⟨.OBJECT, .obj o, key, elementIndex, elementCount, arrayIndex, arrayCount⟩

/-- The BSONParserStackItem constructor taking a BSONElement and an explicit
type tag (ARRAY or ELEMENT). -/
def StackItem.mkElem (t : ItemType) (e : BSONElement) (key : String)
    (elementIndex elementCount arrayIndex arrayCount : Int) : StackItem :=
  ⟨t, .elem e, key, elementIndex, elementCount, arrayIndex, arrayCount⟩

/-- The message of BSONParserStackItem::validate's logic_error: the requested
type t is printed as "OBJECT" when t == OBJECT and as "ELEMENT" otherwise. -/
def validateMsg (t : ItemType) : String :=
  ("Illegal Stack Item Type Access: ") ++ (if t = .OBJECT then ("OBJECT") else ("ELEMENT"))

/-- getObject(): validate(OBJECT) then the object member of the union. -/
def StackItem.getObject (it : StackItem) : Except String BSONObj :=
  if it.type ≠ .OBJECT then .error (validateMsg .OBJECT)
  else match it.payload with
    | .obj o => .ok o
    | .elem _ => .error ("ISE: union holds an element")

/-- getElement(): validate(ELEMENT) then the element member of the union. -/
def StackItem.getElement (it : StackItem) : Except String BSONElement :=
  if it.type ≠ .ELEMENT then .error (validateMsg .ELEMENT)
  else match it.payload with
    | .elem e => .ok e
    | .obj _ => .error ("ISE: union holds an object")

/-- getArray(): validate(ARRAY) then the element member of the union. -/
def StackItem.getArray (it : StackItem) : Except String BSONElement :=
  if it.type ≠ .ARRAY then .error (validateMsg .ARRAY)
  else match it.payload with
    | .elem e => .ok e
    | .obj _ => .error ("ISE: union holds an object")

/-- BSONParserStack is a deque used bottom-first: index 0 is the first item
pushed, push_back appends at the end. -/
abbrev Stack := List StackItem

/-- push: wrap and push_back. -/
def pushItem (s : Stack) (it : StackItem) : Stack := s ++ [it]

/-- drop(): delete pop(), i.e. remove the top (last) entry.  In the traverser
a drop always follows a matching push, so the underflow throw inside pop is
unreachable there; dropLast models the successful path. -/
def dropTop (s : Stack) : Stack := s.dropLast

/-- Result of a stack lookup: the C++ either returns an item, throws the
"Insufficient BSONParserStack Stack Entries" logic_error (underflow), or -
for item() with a negative index on an empty stack - recurses forever.
outOfFuel models the nonterminating recursion. -/
inductive ItemResult where
  | ok (it : StackItem)
  | underflow
  | outOfFuel

/-- BSONParserStack::item(int index).  For index >= 0: throwCount(index+1)
(underflow iff depth < index+1) then stack[index].  For index < 0 it recurses
as item(depth() + index); that recursion consumes one unit of fuel per step.
The C++ recursion does not terminate when the stack is empty and the index is
negative (depth() + index = index), which is exactly the all-fuel-exhausted
case. -/
def itemFuel (s : Stack) (index : Int) (fuel : Nat) : ItemResult :=
  if h0 : 0 ≤ index then
    if h1 : (s.length : Int) < index + 1 then .underflow
    else .ok (s.get ⟨index.toNat, by omega⟩)
  else
    match fuel with
    | 0 => .outOfFuel
    | fuel' + 1 => itemFuel s ((s.length : Int) + index) fuel'

/-- item() with enough fuel for every terminating execution of the C++
recursion (each recursive step moves a negative index up by depth() ≥ 1, so
at most index.natAbs steps happen before the non-negative base case). -/
def item (s : Stack) (index : Int) : ItemResult :=
  itemFuel s index (index.natAbs + 1)

/-- top(): item(depth()-1). -/
def stackTop (s : Stack) : ItemResult :=
  item s ((s.length : Int) - 1)

/-- pop(): throwCount(1) (underflow on an empty stack), otherwise return the
back entry and remove it. -/
def popItem (s : Stack) : ItemResult × Stack :=
  match s.getLast? with
  | some x => (.ok x, s.dropLast)
  | none => (.underflow, s)

/-- std::less<std::string> of the C++ set: lexicographic comparison of the
character sequences, modelled on the code-point lists. -/
def strLt (a b : String) : Prop := a.data < b.data

instance (a b : String) : Decidable (strLt a b) := by
  unfold strLt; infer_instance

/-- Ordered insertion into a sorted std::set<string> keyed by field name:
a strictly smaller key goes in front, an equal key is already present (the
insert is a no-op, so the FIRST inserted pair for a key wins, matching both
set<string>::insert and BSONObj::getField taking the first match), and
otherwise we keep walking. -/
def setInsertField (x : BSONElement) : List BSONElement → List BSONElement
  | [] => [x]
  | y :: ys =>
    if strLt x.fieldName y.fieldName then x :: y :: ys
    else if x.fieldName = y.fieldName then y :: ys
    else y :: setInsertField x ys

/-- Ordered insertion of a bare key into a sorted std::set<string>. -/
def setInsert (k : String) : List String → List String
  | [] => [k]
  | y :: ys =>
    if strLt k y then k :: y :: ys
    else if k = y then y :: ys
    else y :: setInsert k ys

/-- BSONObj::getFieldNames(set<string>&): every field name of the object,
collected into a sorted set (duplicates collapse). -/
def fieldNamesSet (o : BSONObj) : List String :=
  o.foldl (fun acc kv => setInsert kv.1 acc) []

/-- The field sequence the parser's loop actually traverses: C++ collects the
names into a sorted set<string> and then fetches object.getField(key) (the
first pair with that name) for each key in set order.  Inserting the pairs
themselves into a set ordered by field name, keeping the first pair per name,
produces exactly that sequence in one pass. -/
def sortedFields (o : BSONObj) : List BSONElement :=
  o.foldl (fun acc kv => setInsertField ⟨kv.1, kv.2⟩ acc) []

/-- The events of IBSONObjectVisitor, each structural event carrying the
parse context (the BSONParserStack member) at the moment the visitor is
invoked. -/
inductive ParseEvent where
  | parseStart
  | parseEnd
  | objectStart (stack : Stack)
  | objectEnd (stack : Stack)
  | arrayStart (stack : Stack)
  | arrayEnd (stack : Stack)
  | element (stack : Stack)

mutual

/-- BSONObjectParser::parseElementRecursive.  The extra leading Nat is fuel
making the recursion structural; `parse` supplies enough fuel (proved below)
so the zero-fuel branch is never taken there.  The returned pair is the
sequence of visitor events fired (with their stack snapshots) and the stack
after the call (the C++ stack is a mutable member; we thread it). -/
def parseElementRecursive : Nat → BSONElement → String → Int → Int → Int → Int →
    Stack → List ParseEvent × Stack
  | 0, _, _, _, _, _, _, stack => ([], stack)
  | fuel + 1, e, key, elementIndex, elementCount, arrayIndex, arrayCount, stack =>
    match e.value with
    | .object bobj =>
      -- case Object: string k(element.fieldName()); parseObjectRecursive(bobj, k, ...)
      parseObjectRecursive fuel bobj e.fieldName elementIndex elementCount arrayIndex arrayCount stack
    | .array elems =>
      -- case Array: push an ARRAY item, onArrayStart, recurse per element
      -- (elementIndex/elementCount passed through unchanged,
      -- elementArrayIndex++/elementArrayCount as arrayIndex/arrayCount),
      -- onArrayEnd, drop.
      let st1 := pushItem stack (StackItem.mkElem .ARRAY e key elementIndex elementCount arrayIndex arrayCount)
      let elementArrayCount : Int := elems.length
      let r := parseArrayLoop fuel elems elementIndex elementCount 0 elementArrayCount st1
      ((ParseEvent.arrayStart st1 :: r.1) ++ [ParseEvent.arrayEnd r.2], dropTop r.2)
    | .scalar _ _ =>
      -- default: push an ELEMENT item, onElement, drop.
      let st1 := pushItem stack (StackItem.mkElem .ELEMENT e key elementIndex elementCount arrayIndex arrayCount)
      ([ParseEvent.element st1], dropTop st1)

/-- The per-element loop of the Array case: for each e in element.Array(),
string k(e.fieldName()) - the decimal index for BSON array members - then
parseElementRecursive(e, k, elementIndex, elementCount, elementArrayIndex++,
elementArrayCount). -/
def parseArrayLoop : Nat → List BSONValue → Int → Int → Int → Int →
    Stack → List ParseEvent × Stack
  | 0, _, _, _, _, _, stack => ([], stack)
  | _ + 1, [], _, _, _, _, stack => ([], stack)
  | fuel + 1, v :: rest, elementIndex, elementCount, i, n, stack =>
    let e : BSONElement := ⟨toString i, v⟩
    let r1 := parseElementRecursive fuel e e.fieldName elementIndex elementCount i n stack
    let r2 := parseArrayLoop fuel rest elementIndex elementCount (i + 1) n r1.2
    (r1.1 ++ r2.1, r2.2)

/-- BSONObjectParser::parseObjectRecursive: push an OBJECT item, emit
onObjectStart, walk the sorted field set with ei counting from 0 and
ec = keys.size(), emit onObjectEnd, drop. -/
def parseObjectRecursive : Nat → BSONObj → String → Int → Int → Int → Int →
    Stack → List ParseEvent × Stack
  | 0, _, _, _, _, _, _, stack => ([], stack)
  | fuel + 1, o, key, elementIndex, elementCount, arrayIndex, arrayCount, stack =>
    let st1 := pushItem stack (StackItem.mkObj o key elementIndex elementCount arrayIndex arrayCount)
    let fields := sortedFields o
    let ec : Int := fields.length
    let r := parseFieldsLoop fuel fields 0 ec arrayIndex st1
    ((ParseEvent.objectStart st1 :: r.1) ++ [ParseEvent.objectEnd r.2], dropTop r.2)

/-- The field loop of parseObjectRecursive: for each key,
parseElementRecursive(e, key, ei++, ec, arrayIndex) - NOTE: the C++ call
leaves the arrayCount parameter at its default value 0 while still passing
arrayIndex through. -/
def parseFieldsLoop : Nat → List BSONElement → Int → Int → Int →
    Stack → List ParseEvent × Stack
  | 0, _, _, _, _, stack => ([], stack)
  | _ + 1, [], _, _, _, stack => ([], stack)
  | fuel + 1, f :: rest, ei, ec, arrayIndex, stack =>
    let r1 := parseElementRecursive fuel f f.fieldName ei ec arrayIndex 0 stack
    let r2 := parseFieldsLoop fuel rest (ei + 1) ec arrayIndex r1.2
    (r1.1 ++ r2.1, r2.2)

end

mutual

/-- Size of a value, used only to compute sufficient fuel for the parser. -/
def sizeV : BSONValue → Nat
  | .scalar _ _ => 1
  | .object fields => 1 + sizeFields fields
  | .array elems => 1 + sizeElems elems

/-- Size of a field list. -/
def sizeFields : List (String × BSONValue) → Nat
  | [] => 1
  | kv :: rest => 1 + sizeV kv.2 + sizeFields rest

/-- Size of an array element list. -/
def sizeElems : List BSONValue → Nat
  | [] => 1
  | v :: rest => 1 + sizeV v + sizeElems rest

end

/-- Size of a list of BSONElements (as produced by sortedFields). -/
def sizeFieldElems : List BSONElement → Nat
  | [] => 1
  | f :: rest => 1 + sizeV f.value + sizeFieldElems rest

/-- The parser run with a given fuel: onParseStart, then
parseObjectRecursive(object, "") with the default indices (0, 1, -1, 0) on a
fresh (empty) stack, then onParseEnd. -/
def parseRun (fuel : Nat) (o : BSONObj) : List ParseEvent × Stack :=
  ((ParseEvent.parseStart :: (parseObjectRecursive fuel o ("") 0 1 (-1) 0 []).1)
     ++ [ParseEvent.parseEnd],
   (parseObjectRecursive fuel o ("") 0 1 (-1) 0 []).2)

/-- BSONObjectParser::parse.  The fuel sizeFields o + 1 is sufficient: the
events and final stack are those of the (fuel-free) C++ recursion. -/
def parse (o : BSONObj) : List ParseEvent × Stack :=
  parseRun (sizeFields o + 1) o

/-! ## Type annotation strings (BSONTypeMap.cpp, BSONTypeFormatter.hpp) -/

/-- TYPE_NAME flag of Parameters.hpp. -/
def TYPE_NAME : Nat := 1
/-- TYPE_DESC flag of Parameters.hpp. -/
def TYPE_DESC : Nat := 2
/-- TYPE_CODE flag of Parameters.hpp. -/
def TYPE_CODE : Nat := 4

/-- The BSONTypeLookupTable of BSONTypeMap.cpp: BSON type code to
(name, description); unmatched codes give ("UNKNOWN","UNKNOWN").  The codes
are the legacy mongo BSONType enum values. -/
def bsonTypeLookup (c : Int) : String × String :=
  if c = -1 then (("MinKey"), ("MinKey"))
  else if c = 0 then (("EOO"), ("EOO"))
  else if c = 1 then (("NumberDouble"), ("Double"))
  else if c = 2 then (("String"), ("UTF8"))
  else if c = 3 then (("Object"), ("BSON"))
  else if c = 4 then (("Array"), ("BSON Array"))
  else if c = 5 then (("BinData"), ("Binary"))
  else if c = 6 then (("Undefined"), ("Undefined"))
  else if c = 7 then (("jstOID"), ("ObjectId"))
  else if c = 8 then (("Bool"), ("Boolean"))
  else if c = 9 then (("Date"), ("Date"))
  else if c = 10 then (("jstNULL"), ("NULL"))
  else if c = 11 then (("RegEx"), ("Regex"))
  else if c = 12 then (("DBRef"), ("deprecated"))
  else if c = 13 then (("Code"), ("deprecated"))
  else if c = 14 then (("Symbol"), ("Symbol"))
  else if c = 15 then (("CodeWScope"), ("Javascript"))
  else if c = 16 then (("NumberInt"), ("int32"))
  else if c = 17 then (("Timestamp"), ("Timestamp"))
  else if c = 18 then (("NumberLong"), ("int64"))
  else if c = 19 then (("JSTypeMax"), ("Max Object Value Used"))
  else if c = 127 then (("MaxKey"), ("MaxKey"))
  else (("UNKNOWN"), ("UNKNOWN"))

/-- BSONTypeFormatter::to_string for an element of type code c under the
configured type mask (default TYPE_ALL = 7): empty when the mask is 0,
otherwise "(" then name if TYPE_NAME, then "/" + description if TYPE_DESC,
then "/" + decimal code if TYPE_CODE, then ")".  (The string already holds
"(" when the DESC/CODE slash test runs, so the slash is always emitted.) -/
def typeFormat (mask : Nat) (c : Int) : String :=
  if mask ≠ 0 then
    let nd := bsonTypeLookup c
    let s := ("(")
    let s := if mask &&& TYPE_NAME ≠ 0 then s ++ nd.1 else s
    let s := if mask &&& TYPE_DESC ≠ 0 then (if s.length ≠ 0 then s ++ ("/") else s) ++ nd.2 else s
    let s := if mask &&& TYPE_CODE ≠ 0 then (if s.length ≠ 0 then s ++ ("/") else s) ++ toString c else s
    s ++ (")")
  else ("")

/-! ## Renderers.

Each renderer implements the IBSONObjectVisitor events; here a renderer is a
step function folded over the event trace of `parse`.  Renderer exceptions
(the std::logic_error thrown by a typed accessor) abort the fold, modelled by
Except. -/

/-- Fold a renderer step function over the event trace. -/
def runEvents {σ : Type} (step : σ → ParseEvent → Except String σ) :
    σ → List ParseEvent → Except String σ
  | st, [] => .ok st
  | st, ev :: rest =>
    match step st ev with
    | .ok st' => runEvents step st' rest
    | .error msg => .error msg

/-- n copies of the indent token. -/
def repInd (indentStr : String) (n : Nat) : String :=
  String.join (List.replicate n indentStr)

/-- JSONDump::istr: a newline, level copies of the indent token (no copies
for a non-positive level, as in the C++ for loop on ints), then the token. -/
def jsonIstr (indentStr token : String) (level : Int) : String :=
  ("\n") ++ repInd indentStr level.toNat ++ token

/-- JSONDump::emitComma: only when depth() >= 2; parent = item(-2);
comma iff top().elementIndex > 0 and (parent is not an ARRAY or
top().arrayIndex > 0). -/
def emitComma (s : Stack) : String :=
  if (2 : Int) ≤ (s.length : Int) then
    match item s (-2), stackTop s with
    | .ok parent, .ok t =>
      let parentIsNotArray : Bool := parent.type ≠ .ARRAY
      if decide (t.elementIndex > 0) && (parentIsNotArray || decide (t.arrayIndex > 0))
      then (",") else ("")
    | _, _ => ("")
  else ("")

/-- JSONDump::emitKey: parentIsNotArray defaults to true when the stack is
too shallow for item(-2); the quoted key and colon are emitted only when
depth() > 1 and the enclosing collection is not an array; in every case the
result goes through istr at the current depth. -/
def emitKey (indentStr : String) (s : Stack) : String :=
  let parentIsNotArray : Bool :=
    if (2 : Int) ≤ (s.length : Int) then
      match item s (-2) with
      | .ok parent => parent.type ≠ .ARRAY
      | _ => true
    else true
  let ks : String :=
    if decide ((1 : Int) < (s.length : Int)) && parentIsNotArray then
      match stackTop s with
      | .ok t => ("\"") ++ t.key ++ ("\" : ")
      | _ => ("")
    else ("")
  jsonIstr indentStr ks (s.length : Int)

/-- JSONDump::nextLine: emitComma then emitKey (stack-debug output off). -/
def nextLine (indentStr : String) (s : Stack) : String :=
  emitComma s ++ emitKey indentStr s

/-- JSONDump's visitor events, over the accumulated output string. -/
def jsonStep (indentStr : String) (out : String) : ParseEvent → Except String String
  | .parseStart => .ok out
  | .parseEnd => .ok out
  | .objectStart s => .ok (out ++ nextLine indentStr s ++ ("\x7b"))
  | .objectEnd s => .ok (out ++ jsonIstr indentStr ("\x7d") (s.length : Int))
  | .arrayStart s => .ok (out ++ nextLine indentStr s ++ ("["))
  | .arrayEnd s => .ok (out ++ jsonIstr indentStr ("]") (s.length : Int))
  | .element s =>
    match stackTop s with
    | .ok t =>
      match t.getElement with
      | .ok e => .ok (out ++ nextLine indentStr s ++ elemValueText e)
      | .error msg => .error msg
    | _ => .error ("ISE: Insufficient BSONParserStack Stack Entries")

/-- JSONDump::render(object, docIndex, docCount): a separating comma when
docIndex > 0, then a fresh parser is run over the object. -/
def jsonRender (indentStr : String) (o : BSONObj) (docIndex : Int) : Except String String :=
  match runEvents (jsonStep indentStr) (if docIndex > 0 then (",") else ("")) (parse o).1 with
  | .ok out => .ok out
  | .error msg => .error msg

/-- BSONObjectTypeDump's visitor events over (indent level, output).
onObjectStart: newline + indent + "[arrayIndex]: " when array-enclosed + "{",
indent++.  onObjectEnd: indent--, newline + indent + "}".  onArrayStart:
" {ARRAY[arrayCount]}" using top().getArrayCount(), indent++.  onArrayEnd:
indent--.  onElement: newline + indent + element text ("key: value") + " " +
type annotation. -/
def treeStep (mask : Nat) (indentStr : String) :
    Int × String → ParseEvent → Except String (Int × String)
  | (_, out), .parseStart => .ok (0, out)
  | (level, out), .parseEnd => .ok (level, out)
  | (level, out), .objectStart s =>
    match stackTop s with
    | .ok t =>
      .ok (level + 1,
        out ++ ("\n") ++ repInd indentStr level.toNat
            ++ (if t.arrayIndex ≥ 0 then ("[") ++ toString t.arrayIndex ++ ("]: ") else (""))
            ++ ("\x7b"))
    | _ => .error ("ISE: Insufficient BSONParserStack Stack Entries")
  | (level, out), .objectEnd _ =>
    .ok (level - 1, out ++ ("\n") ++ repInd indentStr (level - 1).toNat ++ ("\x7d"))
  | (level, out), .arrayStart s =>
    match stackTop s with
    | .ok t =>
      .ok (level + 1, out ++ (" \x7bARRAY[") ++ toString t.arrayCount ++ ("]\x7d"))
    | _ => .error ("ISE: Insufficient BSONParserStack Stack Entries")
  | (level, out), .arrayEnd _ => .ok (level - 1, out)
  | (level, out), .element s =>
    match stackTop s with
    | .ok t =>
      match t.getElement with
      | .ok e =>
        .ok (level,
          out ++ ("\n") ++ repInd indentStr level.toNat ++ elemFullText e
              ++ (" ") ++ typeFormat mask (bsonTypeOf e.value))
      | .error msg => .error msg
    | _ => .error ("ISE: Insufficient BSONParserStack Stack Entries")

/-- BSONObjectTypeDump::render: "\n" + initialToken + " =>", then a fresh
parse (onParseStart resets the indent level to 0). -/
def treeRender (mask : Nat) (indentStr initialToken : String) (o : BSONObj) :
    Except String String :=
  match runEvents (treeStep mask indentStr) (0, ("\n") ++ initialToken ++ (" =>")) (parse o).1 with
  | .ok r => .ok r.2
  | .error msg => .error msg

/-- BSONDotNotationDump's visitor events over (dotStack, output).
onObjectStart pushes "[arrayIndex]" when top().getArrayIndex() >= 0;
onObjectEnd pops under the same condition; onArrayStart appends "." +
top().getElement().fieldName() - NOTE: getElement() on the ARRAY item, which
throws the validate logic_error; onArrayEnd pops; onElement writes the
concatenated segments + "." + element text + " " + type annotation + "\n". -/
def dotStep (mask : Nat) :
    List String × String → ParseEvent → Except String (List String × String)
  | st, .parseStart => .ok st
  | st, .parseEnd => .ok st
  | (ds, out), .objectStart s =>
    match stackTop s with
    | .ok t =>
      .ok ((if t.arrayIndex ≥ 0 then ds ++ [("[") ++ toString t.arrayIndex ++ ("]")] else ds), out)
    | _ => .error ("ISE: Insufficient BSONParserStack Stack Entries")
  | (ds, out), .objectEnd s =>
    match stackTop s with
    | .ok t => .ok ((if t.arrayIndex ≥ 0 then ds.dropLast else ds), out)
    | _ => .error ("ISE: Insufficient BSONParserStack Stack Entries")
  | (ds, out), .arrayStart s =>
    match stackTop s with
    | .ok t =>
      match t.getElement with
      | .ok e => .ok (ds ++ [(".") ++ e.fieldName], out)
      | .error msg => .error msg
    | _ => .error ("ISE: Insufficient BSONParserStack Stack Entries")
  | (ds, out), .arrayEnd _ => .ok (ds.dropLast, out)
  | (ds, out), .element s =>
    match stackTop s with
    | .ok t =>
      match t.getElement with
      | .ok e =>
        .ok (ds, out ++ String.join ds ++ (".") ++ elemFullText e
                  ++ (" ") ++ typeFormat mask (bsonTypeOf e.value) ++ ("\n"))
      | .error msg => .error msg
    | _ => .error ("ISE: Insufficient BSONParserStack Stack Entries")

/-- BSONDotNotationDump::render: a newline, then a fresh parse; the dotStack
is seeded with the caller-supplied initial token. -/
def dotRender (mask : Nat) (initialToken : String) (o : BSONObj) :
    Except String String :=
  match runEvents (dotStep mask) ([initialToken], ("\n")) (parse o).1 with
  | .ok r => .ok r.2
  | .error msg => .error msg

/-! ## Trace predicates used to state the claims -/

/-- How one event changes the running nesting depth: start events enter a
collection, end events leave it, a scalar element leaves the depth unchanged
(its entry is pushed and dropped within the event). -/
def depthStep (c : Int) : ParseEvent → Int
  | .objectStart _ => c + 1
  | .objectEnd _ => c - 1
  | .arrayStart _ => c + 1
  | .arrayEnd _ => c - 1
  | _ => c

/-- Running nesting depth after a list of events, starting from c. -/
def depthAfter (c : Int) : List ParseEvent → Int
  | [] => c
  | ev :: rest => depthAfter (depthStep c ev) rest

/-- The stack depth recorded in every event equals the running nesting depth:
at a start event and at a scalar element the snapshot holds the entered
node's entry (depth c+1); at an end event the collection's entry is still on
the stack (depth equal to the collection's depth). -/
def TraceOk : Int → List ParseEvent → Prop
  | _, [] => True
  | c, .parseStart :: rest => TraceOk c rest
  | c, .parseEnd :: rest => TraceOk c rest
  | c, .objectStart s :: rest => (s.length : Int) = c + 1 ∧ TraceOk (c + 1) rest
  | c, .objectEnd s :: rest => (s.length : Int) = c ∧ TraceOk (c - 1) rest
  | c, .arrayStart s :: rest => (s.length : Int) = c + 1 ∧ TraceOk (c + 1) rest
  | c, .arrayEnd s :: rest => (s.length : Int) = c ∧ TraceOk (c - 1) rest
  | c, .element s :: rest => (s.length : Int) = c + 1 ∧ TraceOk c rest

/-- The type tag and the union member of a stack item agree (OBJECT items
hold a BSONObj, ARRAY and ELEMENT items hold a BSONElement). -/
def StackItem.payloadOk (it : StackItem) : Prop :=
  match it.type, it.payload with
  | .OBJECT, .obj _ => True
  | .ARRAY, .elem _ => True
  | .ELEMENT, .elem _ => True
  | _, _ => False

/-- Relation between a visited node's stack entry and the entry below it
(its enclosing collection): when the parent is an ARRAY item, the child entry
inherits the array's elementIndex/elementCount unchanged and carries its
position in and the length of that array in arrayIndex/arrayCount.  The
entry at the very bottom of the stack (the root object) has elementIndex 0. -/
def parentFacts (below : Stack) (top : StackItem) : Prop :=
  match below.getLast? with
  | none => top.elementIndex = 0
  | some p =>
    p.type = .ARRAY →
      ∃ pe elems, p.payload = .elem pe ∧ pe.value = .array elems ∧
        top.elementIndex = p.elementIndex ∧ top.elementCount = p.elementCount ∧
        0 ≤ top.arrayIndex ∧ top.arrayIndex < (elems.length : Int) ∧
        top.arrayCount = (elems.length : Int)

/-- A well-formed event snapshot: the stack is the base stack plus the
visited node's entry on top, of the stated type. -/
def snapOk (s : Stack) (k : ItemType) : Prop :=
  ∃ below top, s = below ++ [top] ∧ top.type = k ∧ top.payloadOk ∧ parentFacts below top

/-- Per-event well-formedness. -/
def EventOk : ParseEvent → Prop
  | .parseStart => True
  | .parseEnd => True
  | .objectStart s => snapOk s .OBJECT
  | .objectEnd s => snapOk s .OBJECT
  | .arrayStart s => snapOk s .ARRAY
  | .arrayEnd s => snapOk s .ARRAY
  | .element s => snapOk s .ELEMENT

/-- Invariant on the arguments of parseElementRecursive/parseObjectRecursive
relative to the stack they are called with: at the root (empty stack) the
elementIndex default 0 is used; under an ARRAY entry the arguments are the
ones the array loop passes (inherited elementIndex/elementCount, in-range
arrayIndex, arrayCount = array length). -/
def CallOk (st : Stack) (ei ec ai ac : Int) : Prop :=
  match st.getLast? with
  | none => ei = 0
  | some p =>
    p.type = .ARRAY →
      ∃ pe elems, p.payload = .elem pe ∧ pe.value = .array elems ∧
        ei = p.elementIndex ∧ ec = p.elementCount ∧
        0 ≤ ai ∧ ai < (elems.length : Int) ∧ ac = (elems.length : Int)

/-- Invariant for the array element loop: the top of the stack is the ARRAY
entry being traversed, the loop's elementIndex/elementCount are the array's
own, i counts the elements already consumed and n is the array's length. -/
def ArrOk (st : Stack) (ei ec i n : Int) (elems : List BSONValue) : Prop :=
  ∃ p pe full, st.getLast? = some p ∧ p.type = .ARRAY ∧ p.payload = .elem pe ∧
    pe.value = .array full ∧ ei = p.elementIndex ∧ ec = p.elementCount ∧
    0 ≤ i ∧ i + (elems.length : Int) = n ∧ n = (full.length : Int)

/-- Invariant for the object field loop: the top of the stack is the OBJECT
entry being traversed (in particular not an ARRAY entry). -/
def FieldsOk (st : Stack) : Prop :=
  ∃ p, st.getLast? = some p ∧ p.type ≠ .ARRAY

/-- The conclusions of the traversal invariant for one recursive call with
incoming stack st: the stack is returned unchanged (every push is matched by
exactly one drop), the events are depth-balanced starting and ending at the
incoming depth, and every event is well formed. -/
def PE (r : List ParseEvent × Stack) (st : Stack) : Prop :=
  r.2 = st ∧ depthAfter (st.length : Int) r.1 = (st.length : Int) ∧
    TraceOk (st.length : Int) r.1 ∧ ∀ ev ∈ r.1, EventOk ev

/-- The stack snapshot of the three events at which JSONDump runs its
comma/key logic (nextLine): object start, array start, scalar element. -/
def commaEventStack : ParseEvent → Option Stack
  | .objectStart s => some s
  | .arrayStart s => some s
  | .element s => some s
  | _ => none

/-- The keys of the entries at the scalar element events, in trace order. -/
def elementEventKeys (evs : List ParseEvent) : List String :=
  evs.filterMap fun ev =>
    match ev with
    | .element s => (s.getLast?).map (fun t => t.key)
    | _ => none

/-- The (elementIndex, elementCount, arrayIndex, arrayCount) of the entries
at the scalar element events, in trace order. -/
def elementQuads (evs : List ParseEvent) : List (Int × Int × Int × Int) :=
  evs.filterMap fun ev =>
    match ev with
    | .element s =>
      (s.getLast?).map (fun t => (t.elementIndex, t.elementCount, t.arrayIndex, t.arrayCount))
    | _ => none

/-- The (arrayIndex, arrayCount) of the entries at the scalar element
events, in trace order. -/
def elementArrayPairs (evs : List ParseEvent) : List (Int × Int) :=
  evs.filterMap fun ev =>
    match ev with
    | .element s => (s.getLast?).map (fun t => (t.arrayIndex, t.arrayCount))
    | _ => none

/-- What claim C10 asserts of one event: the top entry exists, carries the
type matching the event, and the matching typed accessor succeeds. -/
def TopTypeOk : ParseEvent → Prop
  | .parseStart => True
  | .parseEnd => True
  | .objectStart s => ∃ it o, stackTop s = .ok it ∧ it.type = .OBJECT ∧ it.getObject = .ok o
  | .objectEnd s => ∃ it o, stackTop s = .ok it ∧ it.type = .OBJECT ∧ it.getObject = .ok o
  | .arrayStart s => ∃ it e, stackTop s = .ok it ∧ it.type = .ARRAY ∧ it.getArray = .ok e
  | .arrayEnd s => ∃ it e, stackTop s = .ok it ∧ it.type = .ARRAY ∧ it.getArray = .ok e
  | .element s => ∃ it e, stackTop s = .ok it ∧ it.type = .ELEMENT ∧ it.getElement = .ok e

/-- What the amended claim C4 asserts of one event: whenever the enclosing
collection (stack item(-2), defined when the depth is at least 2) is an
ARRAY entry, the visited node's entry inherits the array's own
elementIndex/elementCount unchanged, and its arrayIndex/arrayCount are its
position in and the length of that array. -/
def ArrayParentInherited : ParseEvent → Prop
  | .parseStart => True
  | .parseEnd => True
  | .objectStart s | .objectEnd s | .arrayStart s | .arrayEnd s | .element s =>
    ∀ t p, stackTop s = .ok t → item s (-2) = .ok p → (2 : Int) ≤ (s.length : Int) →
      p.type = .ARRAY →
        ∃ pe elems, p.payload = .elem pe ∧ pe.value = .array elems ∧
          t.elementIndex = p.elementIndex ∧ t.elementCount = p.elementCount ∧
          0 ≤ t.arrayIndex ∧ t.arrayIndex < (elems.length : Int) ∧
          t.arrayCount = (elems.length : Int)

/-! ## Concrete documents used by the examples in the claims -/

/-- The object of three scalar fields of claims C1 and C3: a:1, b:2, c:3
(NumberInt scalars, type code 16). -/
def docABC : BSONObj :=
  [(("a"), .scalar 16 ("1")), (("b"), .scalar 16 ("2")), (("c"), .scalar 16 ("3"))]

/-- An object whose fields are stored in the order b, a. -/
def docBA : BSONObj :=
  [(("b"), .scalar 16 ("2")), (("a"), .scalar 16 ("1"))]

/-- An object with one field x holding the array [10, 20] (claim C4). -/
def docXArr : BSONObj :=
  [(("x"), .array [.scalar 16 ("10"), .scalar 16 ("20")])]

/-- An object with one field a holding the one-element array [1] (claim C5). -/
def docAArr : BSONObj :=
  [(("a"), .array [.scalar 16 ("1")])]

/-- An object with one field x holding the array [1, 2, 3] (claim C6). -/
def docXArr3 : BSONObj :=
  [(("x"), .array [.scalar 16 ("1"), .scalar 16 ("2"), .scalar 16 ("3")])]

/-- The document of claim C7: a nested object, a holding the object b:5. -/
def docAB5 : BSONObj :=
  [(("a"), .object [(("b"), .scalar 16 ("5"))])]

/-- The document of claim C8: a holding an array whose single element is the
object with scalar field x:1. -/
def docArrObj : BSONObj :=
  [(("a"), .array [.object [(("x"), .scalar 16 ("1"))]])]

/-- A concrete stack entry used in the claim C2 examples. -/
def itemA : StackItem := StackItem.mkObj [] ("") 0 1 (-1) 0

/-- Another concrete stack entry used in the claim C2 examples. -/
def itemB : StackItem := StackItem.mkObj [] ("k") 1 2 (-1) 0

/-- The parse stack at the onElement event for field b of docABC: the root
object entry and the scalar entry for b (sibling index 1 of 3). -/
def stackABCb : Stack :=
  [StackItem.mkObj docABC ("") 0 1 (-1) 0,
   StackItem.mkElem .ELEMENT ⟨("b"), .scalar 16 ("2")⟩ ("b") 1 3 (-1) 0]

/-! ## Lemmas about the context stack -/

theorem itemFuel_nonneg_eq (s : Stack) (i : Int) (f : Nat) (h : 0 ≤ i) :
    itemFuel s i f =
      match s.get? i.toNat with
      | some x => ItemResult.ok x
      | none => ItemResult.underflow := by
  unfold itemFuel
  rw [dif_pos h]
  by_cases h1 : (s.length : Int) < i + 1
  · rw [dif_pos h1]
    have hn : s.length ≤ i.toNat := by omega
    rw [List.get?_eq_none.2 hn]
  · rw [dif_neg h1]
    have hlt : i.toNat < s.length := by omega
    rw [List.get?_eq_get hlt]

theorem item_nonneg_eq (s : Stack) (i : Int) (h : 0 ≤ i) :
    item s i =
      match s.get? i.toNat with
      | some x => ItemResult.ok x
      | none => ItemResult.underflow :=
  itemFuel_nonneg_eq s i _ h

theorem itemFuel_neg_step (s : Stack) (i : Int) (h : i < 0) (f : Nat) :
    itemFuel s i (f + 1) = itemFuel s ((s.length : Int) + i) f := by
  conv_lhs => unfold itemFuel
  rw [dif_neg (by omega)]

/-- item() on an empty stack with a negative index makes no progress: the
C++ recursion calls item(depth() + index) = item(index) forever. -/
theorem itemFuel_empty_neg (i : Int) (h : i < 0) : ∀ f, itemFuel [] i f = .outOfFuel := by
  intro f
  induction f with
  | zero =>
    unfold itemFuel
    rw [dif_neg (by omega)]
  | succ f ih =>
    rw [itemFuel_neg_step _ _ h]
    simpa using ih

/-- A negative index on a non-empty stack terminates and lands on the
bottom-based position index % depth (the C++ recursion adds depth once per
step until the index is non-negative). -/
theorem itemFuel_neg_ok (s : Stack) (hne : s ≠ []) :
    ∀ (f : Nat) (i : Int), i < 0 → i.natAbs ≤ f →
      itemFuel s i f = itemFuel s (i % (s.length : Int)) 0 := by
  have hlen : 0 < (s.length : Int) := by
    have := List.length_pos.2 hne
    omega
  intro f
  induction f with
  | zero => intro i hi habs; omega
  | succ f ih =>
    intro i hi habs
    rw [itemFuel_neg_step _ _ hi]
    by_cases h2 : (s.length : Int) + i < 0
    · rw [ih ((s.length : Int) + i) h2 (by omega)]
      congr 1
      exact Int.add_emod_self_left
    · have h3 : 0 ≤ (s.length : Int) + i := by omega
      have h5 : ((s.length : Int) + i) % (s.length : Int) = i % (s.length : Int) :=
        Int.add_emod_self_left
      have h4 : i % (s.length : Int) = (s.length : Int) + i := by
        rw [← h5, Int.emod_eq_of_lt h3 (by omega)]
      rw [h4]
      rw [itemFuel_nonneg_eq _ _ _ h3, itemFuel_nonneg_eq _ _ _ h3]

/-- item() with a negative index on a non-empty stack: the result is the
same as item(index % depth), an in-range bottom-based lookup. -/
theorem item_neg_wraps (s : Stack) (hne : s ≠ []) (i : Int) (hi : i < 0) :
    item s i = item s (i % (s.length : Int)) := by
  have hlen : 0 < (s.length : Int) := by
    have := List.length_pos.2 hne
    omega
  have hmod : 0 ≤ i % (s.length : Int) := Int.emod_nonneg i (by omega)
  unfold item
  rw [itemFuel_neg_ok s hne _ i hi (by omega)]
  rw [itemFuel_nonneg_eq _ _ _ hmod, itemFuel_nonneg_eq _ _ _ hmod]

/-- top() of a stack with top entry t returns t. -/
theorem stackTop_concat (s : Stack) (t : StackItem) : stackTop (s ++ [t]) = .ok t := by
  unfold stackTop
  rw [item_nonneg_eq _ _ (by simp)]
  have h1 : (((s ++ [t]).length : Int) - 1).toNat = s.length := by simp
  rw [h1, List.get?_concat_length]

/-- item(-2) of a stack of depth at least 2 is the entry just below the top. -/
theorem item_neg2_concat (s : Stack) (p t : StackItem) :
    item ((s ++ [p]) ++ [t]) (-2) = .ok p := by
  have hlen : (((s ++ [p]) ++ [t]).length : Int) = (s.length : Int) + 2 := by simp
  unfold item
  have h2 : ((-2 : Int)).natAbs + 1 = 2 + 1 := by rfl
  rw [h2, itemFuel_neg_step _ _ (by omega), hlen]
  have h3 : (s.length : Int) + 2 + -2 = (s.length : Int) := by omega
  rw [h3, itemFuel_nonneg_eq _ _ _ (by omega)]
  have h4 : ((s.length : Int)).toNat = s.length := by omega
  rw [h4]
  rw [List.get?_append (by simp), List.get?_concat_length]

/-- item(-2) of a singleton stack wraps around to the single entry itself. -/
theorem item_neg2_singleton (t : StackItem) : item [t] (-2) = .ok t := by
  unfold item
  have h2 : ((-2 : Int)).natAbs + 1 = 1 + 1 + 1 := by rfl
  rw [h2, itemFuel_neg_step _ _ (by omega)]
  have h3 : (([t] : Stack).length : Int) + -2 = -1 := by simp
  rw [h3, itemFuel_neg_step _ _ (by omega)]
  have h4 : (([t] : Stack).length : Int) + -1 = 0 := by simp
  rw [h4, itemFuel_nonneg_eq _ _ _ (by omega)]
  rfl

/-- item() with a non-negative index that is at least the depth underflows. -/
theorem item_nonneg_underflow (s : Stack) (i : Int) (h0 : 0 ≤ i)
    (h1 : (s.length : Int) ≤ i) : item s i = .underflow := by
  rw [item_nonneg_eq _ _ h0]
  have hn : s.length ≤ i.toNat := by omega
  rw [List.get?_eq_none.2 hn]

/-! ## Lemmas about the sorted field set -/

theorem sizeFieldElems_nil : sizeFieldElems [] = 1 := rfl

theorem sizeFieldElems_cons (f : BSONElement) (rest : List BSONElement) :
    sizeFieldElems (f :: rest) = 1 + sizeV f.value + sizeFieldElems rest := rfl

theorem sizeFieldElems_setInsertField (x : BSONElement) (l : List BSONElement) :
    sizeFieldElems (setInsertField x l) ≤ 1 + sizeV x.value + sizeFieldElems l := by
  induction l with
  | nil =>
    rw [setInsertField]
    simp only [sizeFieldElems_cons, sizeFieldElems_nil]
    omega
  | cons y ys ih =>
    rw [setInsertField]
    by_cases h1 : strLt x.fieldName y.fieldName
    · rw [if_pos h1]
      simp only [sizeFieldElems_cons]
      omega
    · rw [if_neg h1]
      by_cases h2 : x.fieldName = y.fieldName
      · rw [if_pos h2]
        simp only [sizeFieldElems_cons]
        omega
      · rw [if_neg h2]
        simp only [sizeFieldElems_cons]
        omega

theorem sizeFieldElems_foldl (o : BSONObj) :
    ∀ acc : List BSONElement,
      sizeFieldElems (o.foldl (fun a kv => setInsertField ⟨kv.1, kv.2⟩ a) acc)
        ≤ sizeFieldElems acc + sizeFields o - 1 := by
  induction o with
  | nil => intro acc; simp [sizeFields]
  | cons kv rest ih =>
    intro acc
    have h1 := ih (setInsertField ⟨kv.1, kv.2⟩ acc)
    have h2 := sizeFieldElems_setInsertField ⟨kv.1, kv.2⟩ acc
    have h4 : (BSONElement.mk kv.1 kv.2).value = kv.2 := rfl
    rw [h4] at h2
    simp only [List.foldl_cons]
    have h3 : sizeFields (kv :: rest) = 1 + sizeV kv.2 + sizeFields rest := by
      rw [sizeFields]
    omega

/-- The sorted field set is no bigger than the object, so the parser's fuel
accounting goes through the sort. -/
theorem sizeFieldElems_sortedFields (o : BSONObj) :
    sizeFieldElems (sortedFields o) ≤ sizeFields o := by
  have h := sizeFieldElems_foldl o []
  have h2 : sizeFieldElems [] = 1 := by rw [sizeFieldElems]
  unfold sortedFields
  omega

theorem mem_setInsertField (x z : BSONElement) (l : List BSONElement)
    (h : z ∈ setInsertField x l) : z = x ∨ z ∈ l := by
  induction l with
  | nil =>
    rw [setInsertField] at h
    simp at h
    exact Or.inl h
  | cons y ys ih =>
    rw [setInsertField] at h
    by_cases h1 : strLt x.fieldName y.fieldName
    · rw [if_pos h1] at h
      simp at h
      rcases h with h | h | h
      · exact Or.inl h
      · exact Or.inr (by simp [h])
      · exact Or.inr (by simp [h])
    · rw [if_neg h1] at h
      by_cases h2 : x.fieldName = y.fieldName
      · rw [if_pos h2] at h
        exact Or.inr h
      · rw [if_neg h2] at h
        simp at h
        rcases h with h | h
        · exact Or.inr (by simp [h])
        · rcases ih h with h3 | h3
          · exact Or.inl h3
          · exact Or.inr (by simp [h3])

theorem mem_foldl_setInsertField (o : BSONObj) :
    ∀ (acc : List BSONElement) (z : BSONElement),
      z ∈ o.foldl (fun a kv => setInsertField ⟨kv.1, kv.2⟩ a) acc →
      z ∈ acc ∨ ∃ kv ∈ o, z = BSONElement.mk kv.1 kv.2 := by
  induction o with
  | nil => intro acc z h; exact Or.inl (by simpa using h)
  | cons kv rest ih =>
    intro acc z h
    simp only [List.foldl_cons] at h
    rcases ih (setInsertField ⟨kv.1, kv.2⟩ acc) z h with h1 | h1
    · rcases mem_setInsertField _ _ _ h1 with h2 | h2
      · exact Or.inr ⟨kv, by simp, h2⟩
      · exact Or.inl h2
    · rcases h1 with ⟨kv', hmem, heq⟩
      exact Or.inr ⟨kv', by simp [hmem], heq⟩

/-- Every element of the sorted field set is one of the object's pairs. -/
theorem mem_sortedFields (o : BSONObj) (z : BSONElement) (h : z ∈ sortedFields o) :
    ∃ kv ∈ o, z = BSONElement.mk kv.1 kv.2 := by
  rcases mem_foldl_setInsertField o [] z h with h1 | h1
  · simp at h1
  · exact h1

/-! ## Size positivity and unfolding lemmas -/

theorem sizeV_scalar (c : Int) (t : String) : sizeV (.scalar c t) = 1 := by rw [sizeV]

theorem sizeV_object (fields : BSONObj) : sizeV (.object fields) = 1 + sizeFields fields := by
  rw [sizeV]

theorem sizeV_array (elems : List BSONValue) : sizeV (.array elems) = 1 + sizeElems elems := by
  rw [sizeV]

theorem sizeFields_nil : sizeFields [] = 1 := by rw [sizeFields]

theorem sizeFields_cons (kv : String × BSONValue) (rest : BSONObj) :
    sizeFields (kv :: rest) = 1 + sizeV kv.2 + sizeFields rest := by rw [sizeFields]

theorem sizeElems_nil : sizeElems [] = 1 := by rw [sizeElems]

theorem sizeElems_cons (v : BSONValue) (rest : List BSONValue) :
    sizeElems (v :: rest) = 1 + sizeV v + sizeElems rest := by rw [sizeElems]

theorem sizeV_pos (v : BSONValue) : 1 ≤ sizeV v := by
  cases v with
  | scalar c t => rw [sizeV_scalar]
  | object fields => rw [sizeV_object]; omega
  | array elems => rw [sizeV_array]; omega

theorem sizeFields_pos (o : BSONObj) : 1 ≤ sizeFields o := by
  cases o with
  | nil => rw [sizeFields_nil]
  | cons kv rest => rw [sizeFields_cons]; omega

theorem sizeElems_pos (l : List BSONValue) : 1 ≤ sizeElems l := by
  cases l with
  | nil => rw [sizeElems_nil]
  | cons v rest => rw [sizeElems_cons]; omega

theorem sizeFieldElems_pos (l : List BSONElement) : 1 ≤ sizeFieldElems l := by
  cases l with
  | nil => rw [sizeFieldElems_nil]
  | cons f rest => rw [sizeFieldElems_cons]; omega

/-! ## Composition lemmas for the trace predicates -/

theorem depthAfter_append (c : Int) (a b : List ParseEvent) :
    depthAfter c (a ++ b) = depthAfter (depthAfter c a) b := by
  induction a generalizing c with
  | nil => rfl
  | cons ev rest ih =>
    simp only [List.cons_append, depthAfter]
    exact ih (depthStep c ev)

theorem TraceOk_append (c : Int) (a b : List ParseEvent)
    (ha : TraceOk c a) (hb : TraceOk (depthAfter c a) b) : TraceOk c (a ++ b) := by
  induction a generalizing c with
  | nil => simpa using hb
  | cons ev rest ih =>
    cases ev with
    | parseStart =>
      rw [TraceOk] at ha
      exact (show TraceOk c (.parseStart :: (rest ++ b)) from ih c ha hb)
    | parseEnd => exact ih c ha hb
    | objectStart s =>
      rw [TraceOk] at ha
      exact ⟨ha.1, ih (c + 1) ha.2 hb⟩
    | objectEnd s =>
      rw [TraceOk] at ha
      exact ⟨ha.1, ih (c - 1) ha.2 hb⟩
    | arrayStart s =>
      rw [TraceOk] at ha
      exact ⟨ha.1, ih (c + 1) ha.2 hb⟩
    | arrayEnd s =>
      rw [TraceOk] at ha
      exact ⟨ha.1, ih (c - 1) ha.2 hb⟩
    | element s =>
      rw [TraceOk] at ha
      exact ⟨ha.1, ih c ha.2 hb⟩

theorem dropTop_push (s : Stack) (it : StackItem) : dropTop (pushItem s it) = s := by
  simp [pushItem, dropTop]

theorem getLast_push (s : Stack) (it : StackItem) : (pushItem s it).getLast? = some it := by
  simp [pushItem]

theorem length_push (s : Stack) (it : StackItem) :
    ((pushItem s it).length : Int) = (s.length : Int) + 1 := by
  simp [pushItem]

/-- The entry pushed for a visited node satisfies parentFacts w.r.t. the
stack it is pushed onto, given the call invariant for the node's indices. -/
theorem parentFacts_mk (st : Stack) (t : ItemType) (pl : ItemPayload) (key : String)
    (ei ec ai ac : Int) (h : CallOk st ei ec ai ac) :
    parentFacts st ⟨t, pl, key, ei, ec, ai, ac⟩ := by
  unfold CallOk at h
  unfold parentFacts
  cases hl : st.getLast? with
  | none => rw [hl] at h; exact h
  | some p =>
    rw [hl] at h
    intro hp
    rcases h hp with ⟨pe, elems, h1, h2, h3, h4, h5, h6, h7⟩
    exact ⟨pe, elems, h1, h2, h3, h4, h5, h6, h7⟩

theorem snapOk_push (st : Stack) (it : StackItem) (hp : it.payloadOk)
    (hf : parentFacts st it) : snapOk (pushItem st it) it.type :=
  ⟨st, it, rfl, rfl, hp, hf⟩

theorem payloadOk_mkObj (o : BSONObj) (key : String) (ei ec ai ac : Int) :
    (StackItem.mkObj o key ei ec ai ac).payloadOk := by
  unfold StackItem.mkObj StackItem.payloadOk
  exact trivial

theorem payloadOk_mkElemArray (e : BSONElement) (key : String) (ei ec ai ac : Int) :
    (StackItem.mkElem .ARRAY e key ei ec ai ac).payloadOk := by
  unfold StackItem.mkElem StackItem.payloadOk
  exact trivial

theorem payloadOk_mkElemScalar (e : BSONElement) (key : String) (ei ec ai ac : Int) :
    (StackItem.mkElem .ELEMENT e key ei ec ai ac).payloadOk := by
  unfold StackItem.mkElem StackItem.payloadOk
  exact trivial

/-! ## The traversal invariant -/

theorem PE_nil (st : Stack) : PE ([], st) st := by
  refine ⟨rfl, rfl, trivial, ?_⟩
  intro ev hev
  simp at hev

/-- A scalar visit: push, one element event, drop. -/
theorem PE_scalar (st : Stack) (it : StackItem)
    (hsnap : snapOk (pushItem st it) .ELEMENT) :
    PE ([ParseEvent.element (pushItem st it)], dropTop (pushItem st it)) st := by
  refine ⟨dropTop_push _ _, ?_, ?_, ?_⟩
  · simp [depthAfter, depthStep]
  · rw [TraceOk]
    exact ⟨length_push _ _, trivial⟩
  · intro ev hev
    simp at hev
    subst hev
    exact hsnap

/-- Sequencing two balanced sub-traces: the second starts on the stack the
first returned, which equals the shared base stack. -/
theorem PE_seq (st : Stack) (r1 r2 : List ParseEvent × Stack)
    (h1 : PE r1 st) (h2 : PE r2 r1.2) : PE (r1.1 ++ r2.1, r2.2) st := by
  obtain ⟨hn1, hb1, ht1, he1⟩ := h1
  rw [hn1] at h2
  obtain ⟨hn2, hb2, ht2, he2⟩ := h2
  refine ⟨hn2, ?_, ?_, ?_⟩
  · rw [depthAfter_append, hb1, hb2]
  · exact TraceOk_append _ _ _ ht1 (by rw [hb1]; exact ht2)
  · intro ev hev
    rcases List.mem_append.1 hev with h | h
    · exact he1 ev h
    · exact he2 ev h

/-- An object visit: push, objectStart, balanced inner trace, objectEnd,
drop. -/
theorem PE_objectBlock (st : Stack) (it : StackItem) (r : List ParseEvent × Stack)
    (hpe : PE r (pushItem st it)) (hsnap : snapOk (pushItem st it) .OBJECT) :
    PE ((ParseEvent.objectStart (pushItem st it) :: r.1) ++ [ParseEvent.objectEnd r.2],
        dropTop r.2) st := by
  obtain ⟨hnet, hbal, htr, hev⟩ := hpe
  have hL : ((pushItem st it).length : Int) = (st.length : Int) + 1 := length_push st it
  refine ⟨?_, ?_, ?_, ?_⟩
  · rw [hnet]; exact dropTop_push _ _
  · simp only [List.cons_append, depthAfter, depthStep, List.append_eq]
    rw [depthAfter_append, show (st.length : Int) + 1 = ((pushItem st it).length : Int) from hL.symm,
        hbal]
    simp only [depthAfter, depthStep]
    rw [hL]
    omega
  · simp only [List.cons_append]
    rw [TraceOk]
    refine ⟨hL, ?_⟩
    refine TraceOk_append _ _ _ (by rw [← hL]; exact htr) ?_
    rw [← hL, hbal]
    rw [TraceOk]
    exact ⟨by rw [hnet], trivial⟩
  · intro ev hmem
    simp only [List.cons_append] at hmem
    rcases List.mem_cons.1 hmem with h | h
    · subst h; exact hsnap
    · rcases List.mem_append.1 h with h2 | h2
      · exact hev ev h2
      · have h3 : ev = ParseEvent.objectEnd r.2 := by simpa using h2
        subst h3
        rw [hnet]
        exact hsnap

/-- An array visit: push, arrayStart, balanced inner trace, arrayEnd, drop. -/
theorem PE_arrayBlock (st : Stack) (it : StackItem) (r : List ParseEvent × Stack)
    (hpe : PE r (pushItem st it)) (hsnap : snapOk (pushItem st it) .ARRAY) :
    PE ((ParseEvent.arrayStart (pushItem st it) :: r.1) ++ [ParseEvent.arrayEnd r.2],
        dropTop r.2) st := by
  obtain ⟨hnet, hbal, htr, hev⟩ := hpe
  have hL : ((pushItem st it).length : Int) = (st.length : Int) + 1 := length_push st it
  refine ⟨?_, ?_, ?_, ?_⟩
  · rw [hnet]; exact dropTop_push _ _
  · simp only [List.cons_append, depthAfter, depthStep, List.append_eq]
    rw [depthAfter_append, show (st.length : Int) + 1 = ((pushItem st it).length : Int) from hL.symm,
        hbal]
    simp only [depthAfter, depthStep]
    rw [hL]
    omega
  · simp only [List.cons_append]
    rw [TraceOk]
    refine ⟨hL, ?_⟩
    refine TraceOk_append _ _ _ (by rw [← hL]; exact htr) ?_
    rw [← hL, hbal]
    rw [TraceOk]
    exact ⟨by rw [hnet], trivial⟩
  · intro ev hmem
    simp only [List.cons_append] at hmem
    rcases List.mem_cons.1 hmem with h | h
    · subst h; exact hsnap
    · rcases List.mem_append.1 h with h2 | h2
      · exact hev ev h2
      · have h3 : ev = ParseEvent.arrayEnd r.2 := by simpa using h2
        subst h3
        rw [hnet]
        exact hsnap

/-- Main induction: with sufficient fuel, every recursive entry point of the
parser returns the stack it was given, produces a depth-balanced and
well-formed event trace, and every event snapshot satisfies EventOk. -/
theorem traversalInvariant : ∀ fuel : Nat,
    (∀ (e : BSONElement) (key : String) (ei ec ai ac : Int) (st : Stack),
       sizeV e.value + 1 ≤ fuel → CallOk st ei ec ai ac →
       PE (parseElementRecursive fuel e key ei ec ai ac st) st) ∧
    (∀ (elems : List BSONValue) (ei ec i n : Int) (st : Stack),
       sizeElems elems ≤ fuel → ArrOk st ei ec i n elems →
       PE (parseArrayLoop fuel elems ei ec i n st) st) ∧
    (∀ (o : BSONObj) (key : String) (ei ec ai ac : Int) (st : Stack),
       sizeFields o + 1 ≤ fuel → CallOk st ei ec ai ac →
       PE (parseObjectRecursive fuel o key ei ec ai ac st) st) ∧
    (∀ (fields : List BSONElement) (ei ec ai : Int) (st : Stack),
       sizeFieldElems fields ≤ fuel → FieldsOk st →
       PE (parseFieldsLoop fuel fields ei ec ai st) st) := by
  intro fuel
  induction fuel with
  | zero =>
    refine ⟨?_, ?_, ?_, ?_⟩
    · intro e key ei ec ai ac st hsz
      have := sizeV_pos e.value
      omega
    · intro elems ei ec i n st hsz
      have := sizeElems_pos elems
      omega
    · intro o key ei ec ai ac st hsz
      have := sizeFields_pos o
      omega
    · intro fields ei ec ai st hsz
      have := sizeFieldElems_pos fields
      omega
  | succ fuel ih =>
    obtain ⟨ihElem, ihArr, ihObj, ihFields⟩ := ih
    refine ⟨?_, ?_, ?_, ?_⟩
    -- parseElementRecursive
    · intro e key ei ec ai ac st hsz hcall
      obtain ⟨ek, ev⟩ := e
      cases ev with
      | scalar c txt =>
        simp only [parseElementRecursive]
        exact PE_scalar st _
          (snapOk_push st _ (payloadOk_mkElemScalar _ _ _ _ _ _)
            (parentFacts_mk st _ _ _ _ _ _ _ hcall))
      | object bobj =>
        simp only [parseElementRecursive]
        have hsz2 : sizeFields bobj + 1 ≤ fuel := by
          rw [show (BSONElement.mk ek (.object bobj)).value = .object bobj from rfl,
              sizeV_object] at hsz
          omega
        exact ihObj bobj ek ei ec ai ac st hsz2 hcall
      | array elems =>
        simp only [parseElementRecursive]
        have hszv : sizeV (BSONElement.mk ek (.array elems)).value = 1 + sizeElems elems := by
          rw [show (BSONElement.mk ek (.array elems)).value = .array elems from rfl, sizeV_array]
        have hsz2 : sizeElems elems ≤ fuel := by omega
        have harr : ArrOk (pushItem st (StackItem.mkElem .ARRAY ⟨ek, .array elems⟩ key ei ec ai ac))
            ei ec 0 ((elems.length : Nat) : Int) elems := by
          refine ⟨_, ⟨ek, .array elems⟩, elems, getLast_push st _, rfl, rfl, rfl, rfl, rfl,
            by omega, by omega, rfl⟩
        have hpe := ihArr elems ei ec 0 ((elems.length : Nat) : Int) _ hsz2 harr
        exact PE_arrayBlock st _ _ hpe
          (snapOk_push st _ (payloadOk_mkElemArray _ _ _ _ _ _)
            (parentFacts_mk st _ _ _ _ _ _ _ hcall))
    -- parseArrayLoop
    · intro elems ei ec i n st hsz harr
      cases elems with
      | nil =>
        simp only [parseArrayLoop]
        exact PE_nil st
      | cons v rest =>
        simp only [parseArrayLoop]
        obtain ⟨p, pe, full, hlast, hptype, hppay, hpeval, hei, hec, hi0, hcount, hn⟩ := harr
        have hlen : (((v :: rest).length : Nat) : Int) = (rest.length : Int) + 1 := by
          simp
        have hsz1 : sizeV v + 1 ≤ fuel := by
          rw [sizeElems_cons] at hsz
          have := sizeElems_pos rest
          omega
        have hsz2 : sizeElems rest ≤ fuel := by
          rw [sizeElems_cons] at hsz
          have := sizeV_pos v
          omega
        have hcall : CallOk st ei ec i n := by
          unfold CallOk
          rw [hlast]
          intro _
          exact ⟨pe, full, hppay, hpeval, hei, hec, hi0, by omega, by omega⟩
        have h1 := ihElem ⟨toString i, v⟩ (toString i) ei ec i n st hsz1 hcall
        have hnet1 := h1.1
        have harr2 : ArrOk st ei ec (i + 1) n rest :=
          ⟨p, pe, full, hlast, hptype, hppay, hpeval, hei, hec, by omega, by omega, hn⟩
        have h2 := ihArr rest ei ec (i + 1) n
          (parseElementRecursive fuel ⟨toString i, v⟩ (toString i) ei ec i n st).2 hsz2
          (by rw [hnet1]; exact harr2)
        exact PE_seq st _ _ h1 h2
    -- parseObjectRecursive
    · intro o key ei ec ai ac st hsz hcall
      simp only [parseObjectRecursive]
      have hsz2 : sizeFieldElems (sortedFields o) ≤ fuel := by
        have := sizeFieldElems_sortedFields o
        omega
      have hfok : FieldsOk (pushItem st (StackItem.mkObj o key ei ec ai ac)) := by
        refine ⟨_, getLast_push st _, ?_⟩
        intro h
        exact ItemType.noConfusion h
      have hpe := ihFields (sortedFields o) 0 ((sortedFields o).length : Int) ai _ hsz2 hfok
      exact PE_objectBlock st _ _ hpe
        (snapOk_push st _ (payloadOk_mkObj _ _ _ _ _ _)
          (parentFacts_mk st _ _ _ _ _ _ _ hcall))
    -- parseFieldsLoop
    · intro fields ei ec ai st hsz hfok
      cases fields with
      | nil =>
        simp only [parseFieldsLoop]
        exact PE_nil st
      | cons f rest =>
        simp only [parseFieldsLoop]
        have hsz1 : sizeV f.value + 1 ≤ fuel := by
          rw [sizeFieldElems_cons] at hsz
          have := sizeFieldElems_pos rest
          omega
        have hsz2 : sizeFieldElems rest ≤ fuel := by
          rw [sizeFieldElems_cons] at hsz
          have := sizeV_pos f.value
          omega
        obtain ⟨p, hlast, hptype⟩ := hfok
        have hcall : CallOk st ei ec ai 0 := by
          unfold CallOk
          rw [hlast]
          intro h
          exact absurd h hptype
        have h1 := ihElem f f.fieldName ei ec ai 0 st hsz1 hcall
        have hnet1 := h1.1
        have h2 := ihFields rest (ei + 1) ec ai
          (parseElementRecursive fuel f f.fieldName ei ec ai 0 st).2 hsz2
          (by rw [hnet1]; exact ⟨p, hlast, hptype⟩)
        exact PE_seq st _ _ h1 h2

/-- The invariant holds for the root call that `parse` makes. -/
theorem parse_PE (o : BSONObj) :
    PE (parseObjectRecursive (sizeFields o + 1) o ("") 0 1 (-1) 0 []) [] := by
  have h := (traversalInvariant (sizeFields o + 1)).2.2.1
  exact h o ("") 0 1 (-1) 0 [] (by omega) (by unfold CallOk; rfl)

/-- Every event of a parse satisfies EventOk, and parse's own bracketing
events are inert. -/
theorem parse_events_ok (o : BSONObj) (ev : ParseEvent) (h : ev ∈ (parse o).1) :
    EventOk ev := by
  obtain ⟨hnet, hbal, htr, hev⟩ := parse_PE o
  unfold parse parseRun at h
  simp only [List.cons_append, List.mem_cons, List.mem_append, List.mem_singleton] at h
  rcases h with h | h | h
  · subst h; exact trivial
  · exact hev ev h
  · rcases h with h | h
    · subst h; exact trivial
    · simp at h

/-! ## Typed accessors succeed on well-formed entries -/

theorem getObject_ok (it : StackItem) (ht : it.type = .OBJECT) (hp : it.payloadOk) :
    ∃ o, it.getObject = .ok o := by
  unfold StackItem.getObject
  rw [if_neg (by simp [ht])]
  unfold StackItem.payloadOk at hp
  cases hpl : it.payload with
  | obj o => exact ⟨o, rfl⟩
  | elem e =>
    rw [ht, hpl] at hp
    exact hp.elim

theorem getElement_ok (it : StackItem) (ht : it.type = .ELEMENT) (hp : it.payloadOk) :
    ∃ e, it.getElement = .ok e := by
  unfold StackItem.getElement
  rw [if_neg (by simp [ht])]
  cases hpl : it.payload with
  | elem e => exact ⟨e, rfl⟩
  | obj o =>
    unfold StackItem.payloadOk at hp
    rw [ht, hpl] at hp
    exact hp.elim

theorem getArray_ok (it : StackItem) (ht : it.type = .ARRAY) (hp : it.payloadOk) :
    ∃ e, it.getArray = .ok e := by
  unfold StackItem.getArray
  rw [if_neg (by simp [ht])]
  cases hpl : it.payload with
  | elem e => exact ⟨e, rfl⟩
  | obj o =>
    unfold StackItem.payloadOk at hp
    rw [ht, hpl] at hp
    exact hp.elim

theorem snapOk_topTypeOk_obj (s : Stack) (h : snapOk s .OBJECT) :
    ∃ it o, stackTop s = .ok it ∧ it.type = .OBJECT ∧ it.getObject = .ok o := by
  obtain ⟨below, top, hs, ht, hp, _⟩ := h
  obtain ⟨o, ho⟩ := getObject_ok top ht hp
  exact ⟨top, o, by rw [hs]; exact stackTop_concat below top, ht, ho⟩

theorem snapOk_topTypeOk_arr (s : Stack) (h : snapOk s .ARRAY) :
    ∃ it e, stackTop s = .ok it ∧ it.type = .ARRAY ∧ it.getArray = .ok e := by
  obtain ⟨below, top, hs, ht, hp, _⟩ := h
  obtain ⟨e, he⟩ := getArray_ok top ht hp
  exact ⟨top, e, by rw [hs]; exact stackTop_concat below top, ht, he⟩

theorem snapOk_topTypeOk_elem (s : Stack) (h : snapOk s .ELEMENT) :
    ∃ it e, stackTop s = .ok it ∧ it.type = .ELEMENT ∧ it.getElement = .ok e := by
  obtain ⟨below, top, hs, ht, hp, _⟩ := h
  obtain ⟨e, he⟩ := getElement_ok top ht hp
  exact ⟨top, e, by rw [hs]; exact stackTop_concat below top, ht, he⟩

/-! ## Claim theorems C9 and C10 -/

/-- Claim C9: for every tree, the context stack's depth equals the running
nesting depth at each visitor event (TraceOk starting from depth 0), the
running depth is back to 0 at the end of the trace, and the stack is empty
immediately after parse returns - every push during one parse call is matched
by exactly one drop. -/
theorem claim_C9 (o : BSONObj) :
    TraceOk 0 (parse o).1 ∧ depthAfter 0 (parse o).1 = 0 ∧ (parse o).2 = [] := by
  obtain ⟨hnet, hbal, htr, hev⟩ := parse_PE o
  have h0 : ((([] : Stack).length : Nat) : Int) = 0 := rfl
  rw [h0] at hbal htr
  have hshape : (parse o).1 = ParseEvent.parseStart ::
      ((parseObjectRecursive (sizeFields o + 1) o ("") 0 1 (-1) 0 []).1 ++ [ParseEvent.parseEnd]) := by
    unfold parse parseRun
    simp
  have hshape2 : (parse o).2 = (parseObjectRecursive (sizeFields o + 1) o ("") 0 1 (-1) 0 []).2 := rfl
  rw [hshape, hshape2]
  refine ⟨?_, ?_, hnet⟩
  · show TraceOk 0 ((parseObjectRecursive (sizeFields o + 1) o ("") 0 1 (-1) 0 []).1
      ++ [ParseEvent.parseEnd])
    exact TraceOk_append _ _ _ htr (by rw [hbal]; exact trivial)
  · have hstep : depthAfter 0 (ParseEvent.parseStart ::
        ((parseObjectRecursive (sizeFields o + 1) o ("") 0 1 (-1) 0 []).1 ++ [ParseEvent.parseEnd]))
        = depthAfter 0 ((parseObjectRecursive (sizeFields o + 1) o ("") 0 1 (-1) 0 []).1
            ++ [ParseEvent.parseEnd]) := rfl
    rw [hstep, depthAfter_append, hbal]
    rfl

/-! ## The comma rule of the JSON renderer -/

theorem comma_ite (c : Bool) : ((if c then (",") else ("")) = (",")) ↔ c = true := by
  cases c with
  | true => simp
  | false =>
    simp only [if_neg Bool.false_ne_true, Bool.false_eq_true, iff_false]
    intro h
    exact absurd h (by decide)

/-- The comma condition, characterised over an event snapshot: a comma is
emitted iff the top entry's elementIndex is positive and (the entry two below
the top is not an ARRAY entry, or the top entry's arrayIndex is positive).
At depth 1 the renderer's depth guard suppresses the comma, and the
right-hand side is false as well because the root entry has elementIndex 0
(so the guard changes nothing). -/
theorem emitComma_spec (below : Stack) (t : StackItem)
    (hfirst : below = [] → t.elementIndex = 0) :
    (emitComma (below ++ [t]) = (",") ↔
      ∃ t' p, stackTop (below ++ [t]) = .ok t' ∧ item (below ++ [t]) (-2) = .ok p ∧
        t'.elementIndex > 0 ∧ (p.type ≠ .ARRAY ∨ t'.arrayIndex > 0)) := by
  rcases List.eq_nil_or_concat below with hb | ⟨l, p', hb⟩
  · subst hb
    have h0 := hfirst rfl
    have htop : stackTop ([] ++ [t]) = .ok t := stackTop_concat [] t
    constructor
    · intro h
      exfalso
      unfold emitComma at h
      rw [if_neg (by simp)] at h
      exact absurd h (by decide)
    · rintro ⟨t', p, h1, h2, h3, h4⟩
      exfalso
      rw [htop] at h1
      injection h1 with h1'
      subst h1'
      omega
  · rw [List.concat_eq_append] at hb
    subst hb
    have htop : stackTop ((l ++ [p']) ++ [t]) = .ok t := stackTop_concat (l ++ [p']) t
    have hneg2 : item ((l ++ [p']) ++ [t]) (-2) = .ok p' := item_neg2_concat l p' t
    have hguard : (2 : Int) ≤ (((l ++ [p']) ++ [t]).length : Int) := by simp
    unfold emitComma
    rw [if_pos hguard, hneg2, htop]
    show ((if decide (t.elementIndex > 0) && (decide (¬ p'.type = .ARRAY) || decide (t.arrayIndex > 0))
        then (",") else ("")) = (",")) ↔ _
    rw [comma_ite]
    simp only [Bool.and_eq_true, Bool.or_eq_true, decide_eq_true_eq]
    constructor
    · rintro ⟨h3, h4⟩
      exact ⟨t, p', rfl, rfl, h3, h4⟩
    · rintro ⟨t', p, h1, h2, h3, h4⟩
      injection h1 with h1'
      injection h2 with h2'
      subst h1'
      subst h2'
      exact ⟨h3, h4⟩

/-- Events carrying the parentFacts invariant satisfy the amended claim C4
statement. -/
theorem eventOk_arrayParent (ev : ParseEvent) (h : EventOk ev) : ArrayParentInherited ev := by
  cases ev with
  | parseStart => exact trivial
  | parseEnd => exact trivial
  | objectStart s =>
    obtain ⟨below, top, hs, ht, hp, hpf⟩ := h
    subst hs
    intro t p htop hneg2 hlen hpt
    rw [stackTop_concat] at htop
    injection htop with htop'
    subst htop'
    rcases List.eq_nil_or_concat below with hb | ⟨l, p', hb⟩
    · subst hb; simp at hlen
    · rw [List.concat_eq_append] at hb
      subst hb
      rw [item_neg2_concat] at hneg2
      injection hneg2 with h2'
      subst h2'
      unfold parentFacts at hpf
      rw [List.getLast?_concat] at hpf
      exact hpf hpt
  | objectEnd s =>
    obtain ⟨below, top, hs, ht, hp, hpf⟩ := h
    subst hs
    intro t p htop hneg2 hlen hpt
    rw [stackTop_concat] at htop
    injection htop with htop'
    subst htop'
    rcases List.eq_nil_or_concat below with hb | ⟨l, p', hb⟩
    · subst hb; simp at hlen
    · rw [List.concat_eq_append] at hb
      subst hb
      rw [item_neg2_concat] at hneg2
      injection hneg2 with h2'
      subst h2'
      unfold parentFacts at hpf
      rw [List.getLast?_concat] at hpf
      exact hpf hpt
  | arrayStart s =>
    obtain ⟨below, top, hs, ht, hp, hpf⟩ := h
    subst hs
    intro t p htop hneg2 hlen hpt
    rw [stackTop_concat] at htop
    injection htop with htop'
    subst htop'
    rcases List.eq_nil_or_concat below with hb | ⟨l, p', hb⟩
    · subst hb; simp at hlen
    · rw [List.concat_eq_append] at hb
      subst hb
      rw [item_neg2_concat] at hneg2
      injection hneg2 with h2'
      subst h2'
      unfold parentFacts at hpf
      rw [List.getLast?_concat] at hpf
      exact hpf hpt
  | arrayEnd s =>
    obtain ⟨below, top, hs, ht, hp, hpf⟩ := h
    subst hs
    intro t p htop hneg2 hlen hpt
    rw [stackTop_concat] at htop
    injection htop with htop'
    subst htop'
    rcases List.eq_nil_or_concat below with hb | ⟨l, p', hb⟩
    · subst hb; simp at hlen
    · rw [List.concat_eq_append] at hb
      subst hb
      rw [item_neg2_concat] at hneg2
      injection hneg2 with h2'
      subst h2'
      unfold parentFacts at hpf
      rw [List.getLast?_concat] at hpf
      exact hpf hpt
  | element s =>
    obtain ⟨below, top, hs, ht, hp, hpf⟩ := h
    subst hs
    intro t p htop hneg2 hlen hpt
    rw [stackTop_concat] at htop
    injection htop with htop'
    subst htop'
    rcases List.eq_nil_or_concat below with hb | ⟨l, p', hb⟩
    · subst hb; simp at hlen
    · rw [List.concat_eq_append] at hb
      subst hb
      rw [item_neg2_concat] at hneg2
      injection hneg2 with h2'
      subst h2'
      unfold parentFacts at hpf
      rw [List.getLast?_concat] at hpf
      exact hpf hpt

/-- Claim C10: at every onElement event the top stack entry has type ELEMENT,
at every onObjectStart/onObjectEnd event it has type OBJECT, and at every
onArrayStart/onArrayEnd event it has type ARRAY; the matching typed accessor
(getObject / getArray / getElement) on the top entry succeeds, so a renderer
calling it never triggers the type-mismatch (validate) error branch. -/
theorem claim_C10 (o : BSONObj) (ev : ParseEvent) (h : ev ∈ (parse o).1) :
    TopTypeOk ev := by
  have hok := parse_events_ok o ev h
  cases ev with
  | parseStart => exact trivial
  | parseEnd => exact trivial
  | objectStart s => exact snapOk_topTypeOk_obj s hok
  | objectEnd s => exact snapOk_topTypeOk_obj s hok
  | arrayStart s => exact snapOk_topTypeOk_arr s hok
  | arrayEnd s => exact snapOk_topTypeOk_arr s hok
  | element s => exact snapOk_topTypeOk_elem s hok

/-- Witness for claim C10 at a concrete event: the onElement event for field
b of docABC. -/
theorem claim_C10_witness :
    TopTypeOk ((parse docABC).1.get ⟨3, by
      rw [show parse docABC = parseRun 8 docABC from by
        unfold parse
        rw [show sizeFields docABC = 7 from by norm_num [sizeFields, sizeV, docABC]]]
      decide⟩) :=
  claim_C10 docABC _ (List.get_mem _ _ _)

/-! ## Concrete parse computations (fixing the fuel to its numeric value) -/

theorem parse_docABC_run : parse docABC = parseRun 8 docABC := by
  unfold parse
  rw [show sizeFields docABC = 7 from by norm_num [sizeFields, sizeV, docABC]]

theorem parse_docBA_run : parse docBA = parseRun 6 docBA := by
  unfold parse
  rw [show sizeFields docBA = 5 from by norm_num [sizeFields, sizeV, docBA]]

theorem parse_docXArr_run : parse docXArr = parseRun 9 docXArr := by
  unfold parse
  rw [show sizeFields docXArr = 8 from by
    norm_num [sizeFields, sizeV, sizeElems, docXArr]]

theorem parse_docAArr_run : parse docAArr = parseRun 7 docAArr := by
  unfold parse
  rw [show sizeFields docAArr = 6 from by
    norm_num [sizeFields, sizeV, sizeElems, docAArr]]

theorem parse_docXArr3_run : parse docXArr3 = parseRun 11 docXArr3 := by
  unfold parse
  rw [show sizeFields docXArr3 = 10 from by
    norm_num [sizeFields, sizeV, sizeElems, docXArr3]]

theorem parse_docAB5_run : parse docAB5 = parseRun 7 docAB5 := by
  unfold parse
  rw [show sizeFields docAB5 = 6 from by norm_num [sizeFields, sizeV, docAB5]]

theorem parse_docArrObj_run : parse docArrObj = parseRun 10 docArrObj := by
  unfold parse
  rw [show sizeFields docArrObj = 9 from by
    norm_num [sizeFields, sizeV, sizeElems, docArrObj]]

/-! ## Claim C1 -/

theorem emitComma_snapOk (s : Stack) (k : ItemType) (h : snapOk s k) :
    (emitComma s = (",") ↔
      ∃ t p, stackTop s = .ok t ∧ item s (-2) = .ok p ∧
        t.elementIndex > 0 ∧ (p.type ≠ .ARRAY ∨ t.arrayIndex > 0)) := by
  obtain ⟨below, top, hs, ht, hp, hpf⟩ := h
  subst hs
  refine emitComma_spec below top ?_
  intro hb
  subst hb
  exact hpf

/-- Claim C1: in the JSON renderer, for every visited node (object start,
array start, or scalar element), a comma is emitted iff the node's stack
entry has elementIndex > 0 and (the enclosing collection at stack item(-2)
is not an ARRAY entry, or the entry's arrayIndex > 0); and rendering the
object of three scalar fields a:1, b:2, c:3 produces exactly the shown text,
with exactly two commas, each directly after a key-value pair, none
trailing. -/
theorem claim_C1 :
    (∀ (o : BSONObj) (ev : ParseEvent) (s : Stack), ev ∈ (parse o).1 →
       commaEventStack ev = some s →
       (emitComma s = (",") ↔
         ∃ t p, stackTop s = .ok t ∧ item s (-2) = .ok p ∧
           t.elementIndex > 0 ∧ (p.type ≠ .ARRAY ∨ t.arrayIndex > 0))) ∧
    jsonRender (" ") docABC 0 =
      .ok ("\n \x7b\n  \"a\" : 1,\n  \"b\" : 2,\n  \"c\" : 3\n \x7d") ∧
    (("\n \x7b\n  \"a\" : 1,\n  \"b\" : 2,\n  \"c\" : 3\n \x7d").data.filter
        (fun ch => ch = ',')).length = 2 := by
  refine ⟨?_, ?_, by decide⟩
  · intro o ev s hmem hcomma
    have hok := parse_events_ok o ev hmem
    cases ev with
    | parseStart => exact absurd hcomma (by simp [commaEventStack])
    | parseEnd => exact absurd hcomma (by simp [commaEventStack])
    | objectEnd s2 => exact absurd hcomma (by simp [commaEventStack])
    | arrayEnd s2 => exact absurd hcomma (by simp [commaEventStack])
    | objectStart s2 =>
      have hs : s2 = s := by simpa [commaEventStack] using hcomma
      subst hs
      exact emitComma_snapOk s2 .OBJECT hok
    | arrayStart s2 =>
      have hs : s2 = s := by simpa [commaEventStack] using hcomma
      subst hs
      exact emitComma_snapOk s2 .ARRAY hok
    | element s2 =>
      have hs : s2 = s := by simpa [commaEventStack] using hcomma
      subst hs
      exact emitComma_snapOk s2 .ELEMENT hok
  · unfold jsonRender
    rw [parse_docABC_run]
    rfl

/-- Witness for claim C1: the comma rule instantiated at the onElement event
for field b of docABC. -/
theorem claim_C1_witness :
    emitComma stackABCb = (",") ↔
      ∃ t p, stackTop stackABCb = .ok t ∧ item stackABCb (-2) = .ok p ∧
        t.elementIndex > 0 ∧ (p.type ≠ .ARRAY ∨ t.arrayIndex > 0) :=
  claim_C1.1 docABC (ParseEvent.element stackABCb) stackABCb
    (by rw [parse_docABC_run]
        exact List.Mem.tail _ (List.Mem.tail _ (List.Mem.tail _ (List.Mem.head _))))
    rfl

/-! ## Claim C2 -/

/-- Claim C2 counterexample: on the two-entry stack [itemA, itemB], the call
item(-5) - a negative index whose magnitude exceeds the depth 2 - returns the
top entry itemB instead of failing with StackUnderflow; and top() on an empty
stack exhausts any amount of fuel (the C++ recursion item(-1) -> item(-1)
never reaches the underflow throw), rather than failing with
StackUnderflow. -/
theorem claim_C2_counterexample :
    item [itemA, itemB] (-5) = .ok itemB ∧ stackTop [] = .outOfFuel :=
  ⟨rfl, rfl⟩

/-- Claim C2 (amended): pop on an empty stack fails with StackUnderflow, and
item with a non-negative index at or beyond the depth fails with
StackUnderflow; but top and item with a negative index on an empty stack do
not fail - the recursion item(depth()+index) makes no progress and never
terminates (out of fuel at every fuel) - and item with a negative index on a
non-empty stack always terminates with the entry at bottom-based position
index mod depth, so a negative index whose magnitude exceeds the depth wraps
around and returns an entry instead of failing. -/
theorem claim_C2 :
    (popItem []).1 = .underflow ∧
    (∀ (i : Int) (f : Nat), i < 0 → itemFuel [] i f = .outOfFuel) ∧
    stackTop [] = .outOfFuel ∧
    (∀ (s : Stack) (i : Int), 0 ≤ i → (s.length : Int) ≤ i → item s i = .underflow) ∧
    (∀ (s : Stack) (i : Int), s ≠ [] → i < 0 →
       item s i = item s (i % (s.length : Int)) ∧ ∃ x, item s i = .ok x) := by
  refine ⟨rfl, ?_, ?_, ?_, ?_⟩
  · intro i f hi
    exact itemFuel_empty_neg i hi f
  · show itemFuel [] (-1) 2 = .outOfFuel
    exact itemFuel_empty_neg (-1) (by omega) 2
  · intro s i h0 h1
    exact item_nonneg_underflow s i h0 h1
  · intro s i hne hi
    have hlen : 0 < (s.length : Int) := by
      have := List.length_pos.2 hne
      omega
    refine ⟨item_neg_wraps s hne i hi, ?_⟩
    rw [item_neg_wraps s hne i hi]
    have h1 : 0 ≤ i % (s.length : Int) := Int.emod_nonneg i (by omega)
    have h2 : i % (s.length : Int) < (s.length : Int) := Int.emod_lt_of_pos i hlen
    rw [item_nonneg_eq _ _ h1]
    cases hq : s.get? ((i % (s.length : Int))).toNat with
    | some x => exact ⟨x, rfl⟩
    | none =>
      exfalso
      rw [List.get?_eq_none] at hq
      omega

/-- Witness for claim C2: each amended conjunct applied at a concrete
input. -/
theorem claim_C2_witness :
    itemFuel [] (-1) 7 = .outOfFuel ∧
    item [itemA] 3 = .underflow ∧
    (item [itemA, itemB] (-5) = item [itemA, itemB] ((-5) % (([itemA, itemB] : Stack).length : Int)) ∧
      ∃ x, item [itemA, itemB] (-5) = .ok x) :=
  ⟨claim_C2.2.1 (-1) 7 (by decide),
   claim_C2.2.2.2.1 [itemA] 3 (by decide) (by decide),
   claim_C2.2.2.2.2 [itemA, itemB] (-5) (by simp) (by decide)⟩

/-! ## Claim C3: supporting order lemmas -/

theorem strLt_of_not_of_ne (a b : String) (h1 : ¬ strLt a b) (h2 : a ≠ b) : strLt b a := by
  unfold strLt at *
  rcases lt_trichotomy a.data b.data with h | h | h
  · exact absurd h h1
  · exfalso
    apply h2
    cases a
    cases b
    exact congrArg String.mk h
  · exact h

theorem strLt_trans (a b c : String) (h1 : strLt a b) (h2 : strLt b c) : strLt a c := by
  unfold strLt at *
  exact lt_trans h1 h2

theorem mem_setInsert (k z : String) (l : List String) :
    z ∈ setInsert k l ↔ z = k ∨ z ∈ l := by
  induction l with
  | nil =>
    rw [setInsert]
    simp
  | cons y ys ih =>
    rw [setInsert]
    by_cases h1 : strLt k y
    · rw [if_pos h1]
      simp [List.mem_cons]
    · rw [if_neg h1]
      by_cases h2 : k = y
      · rw [if_pos h2]
        subst h2
        simp [List.mem_cons]
      · rw [if_neg h2]
        simp only [List.mem_cons, ih]
        tauto

theorem pairwise_setInsert (k : String) (l : List String) (h : l.Pairwise strLt) :
    (setInsert k l).Pairwise strLt := by
  induction l with
  | nil =>
    rw [setInsert]
    exact List.pairwise_singleton _ _
  | cons y ys ih =>
    rw [setInsert]
    rcases List.pairwise_cons.1 h with ⟨hy, hys⟩
    by_cases h1 : strLt k y
    · rw [if_pos h1]
      refine List.pairwise_cons.2 ⟨?_, h⟩
      intro z hz
      rcases List.mem_cons.1 hz with hz | hz
      · subst hz; exact h1
      · exact strLt_trans _ _ _ h1 (hy z hz)
    · rw [if_neg h1]
      by_cases h2 : k = y
      · rw [if_pos h2]
        exact h
      · rw [if_neg h2]
        refine List.pairwise_cons.2 ⟨?_, ih hys⟩
        intro z hz
        rcases (mem_setInsert k z ys).1 hz with hz | hz
        · subst hz
          exact strLt_of_not_of_ne _ _ h1 h2
        · exact hy z hz

theorem pairwise_foldl_setInsert (o : BSONObj) :
    ∀ acc : List String, acc.Pairwise strLt →
      (o.foldl (fun a kv => setInsert kv.1 a) acc).Pairwise strLt := by
  induction o with
  | nil => intro acc h; simpa using h
  | cons kv rest ih =>
    intro acc h
    simp only [List.foldl_cons]
    exact ih _ (pairwise_setInsert _ _ h)

/-- The field name set the parser iterates is strictly sorted. -/
theorem pairwise_fieldNamesSet (o : BSONObj) : (fieldNamesSet o).Pairwise strLt :=
  pairwise_foldl_setInsert o [] List.Pairwise.nil

theorem mem_foldl_setInsert (o : BSONObj) :
    ∀ (acc : List String) (k : String),
      (k ∈ o.foldl (fun a kv => setInsert kv.1 a) acc ↔ k ∈ acc ∨ k ∈ o.map Prod.fst) := by
  induction o with
  | nil => intro acc k; simp
  | cons kv rest ih =>
    intro acc k
    simp only [List.foldl_cons, List.map_cons, List.mem_cons]
    rw [ih, mem_setInsert]
    tauto

/-- The field name set holds exactly the object's field names. -/
theorem mem_fieldNamesSet (o : BSONObj) (k : String) :
    k ∈ fieldNamesSet o ↔ k ∈ o.map Prod.fst := by
  unfold fieldNamesSet
  rw [mem_foldl_setInsert]
  simp

theorem map_fieldName_setInsertField (x : BSONElement) (l : List BSONElement) :
    (setInsertField x l).map (fun f => f.fieldName)
      = setInsert x.fieldName (l.map (fun f => f.fieldName)) := by
  induction l with
  | nil =>
    simp only [List.map_nil]
    rw [setInsertField, setInsert]
    rfl
  | cons y ys ih =>
    simp only [List.map_cons]
    rw [setInsertField, setInsert]
    by_cases h1 : strLt x.fieldName y.fieldName
    · rw [if_pos h1, if_pos h1]
      simp
    · rw [if_neg h1, if_neg h1]
      by_cases h2 : x.fieldName = y.fieldName
      · rw [if_pos h2, if_pos h2]
        simp
      · rw [if_neg h2, if_neg h2]
        simp only [List.map_cons]
        rw [ih]

theorem map_fieldName_foldl (o : BSONObj) :
    ∀ acc : List BSONElement,
      (o.foldl (fun a kv => setInsertField ⟨kv.1, kv.2⟩ a) acc).map (fun f => f.fieldName)
        = o.foldl (fun a kv => setInsert kv.1 a) (acc.map (fun f => f.fieldName)) := by
  induction o with
  | nil => intro acc; simp
  | cons kv rest ih =>
    intro acc
    simp only [List.foldl_cons]
    rw [ih, map_fieldName_setInsertField]

/-- The keys of the sorted field sequence are exactly getFieldNames' sorted
set: the parser's iteration order is the set<string> order. -/
theorem sortedFields_names (o : BSONObj) :
    (sortedFields o).map (fun f => f.fieldName) = fieldNamesSet o := by
  unfold sortedFields fieldNamesSet
  rw [map_fieldName_foldl]
  rfl

theorem elementEventKeys_append (a b : List ParseEvent) :
    elementEventKeys (a ++ b) = elementEventKeys a ++ elementEventKeys b :=
  List.filterMap_append a b _

theorem elementEventKeys_parseStart (l : List ParseEvent) :
    elementEventKeys (ParseEvent.parseStart :: l) = elementEventKeys l := rfl

theorem elementEventKeys_parseEnd (l : List ParseEvent) :
    elementEventKeys (ParseEvent.parseEnd :: l) = elementEventKeys l := rfl

theorem elementEventKeys_objectStart (s : Stack) (l : List ParseEvent) :
    elementEventKeys (ParseEvent.objectStart s :: l) = elementEventKeys l := rfl

theorem elementEventKeys_objectEnd (s : Stack) (l : List ParseEvent) :
    elementEventKeys (ParseEvent.objectEnd s :: l) = elementEventKeys l := rfl

theorem elementEventKeys_nil : elementEventKeys [] = [] := rfl

theorem elementEventKeys_element_push (st : Stack) (it : StackItem) (l : List ParseEvent) :
    elementEventKeys (ParseEvent.element (pushItem st it) :: l)
      = it.key :: elementEventKeys l := by
  unfold elementEventKeys
  rw [List.filterMap_cons]
  rw [show (match ParseEvent.element (pushItem st it) with
      | ParseEvent.element s => (s.getLast?).map (fun t => t.key)
      | _ => none) = ((pushItem st it).getLast?).map (fun t => t.key) from rfl]
  rw [getLast_push]
  rfl

/-- The field loop over scalar fields fires one onElement per field, with the
field's key, in loop order. -/
theorem fieldsLoop_scalar_keys :
    ∀ (fuel : Nat) (fields : List BSONElement) (ei ec ai : Int) (st : Stack),
      sizeFieldElems fields ≤ fuel →
      (∀ f ∈ fields, f.value.isScalar = true) →
      elementEventKeys (parseFieldsLoop fuel fields ei ec ai st).1
        = fields.map (fun f => f.fieldName) := by
  intro fuel
  induction fuel with
  | zero =>
    intro fields ei ec ai st hsz
    have := sizeFieldElems_pos fields
    omega
  | succ fuel ih =>
    intro fields ei ec ai st hsz hsc
    cases fields with
    | nil =>
      simp only [parseFieldsLoop]
      rfl
    | cons f rest =>
      simp only [parseFieldsLoop]
      have hs1 : f.value.isScalar = true := hsc f (by simp)
      rw [sizeFieldElems_cons] at hsz
      obtain ⟨fk, fv⟩ := f
      obtain ⟨c, txt, hv⟩ : ∃ c txt, fv = .scalar c txt := by
        cases hval : fv with
        | scalar c txt => exact ⟨c, txt, rfl⟩
        | object fields2 =>
          rw [show (BSONElement.mk fk fv).value = fv from rfl, hval] at hs1
          exact absurd hs1 (by simp [BSONValue.isScalar])
        | array elems2 =>
          rw [show (BSONElement.mk fk fv).value = fv from rfl, hval] at hs1
          exact absurd hs1 (by simp [BSONValue.isScalar])
      subst hv
      cases fuel with
      | zero =>
        have h1 := sizeFieldElems_pos rest
        have h2 : sizeV (BSONElement.mk fk (.scalar c txt)).value = 1 := by
          rw [show (BSONElement.mk fk (.scalar c txt)).value = .scalar c txt from rfl,
            sizeV_scalar]
        omega
      | succ fuel2 =>
        simp only [parseElementRecursive]
        rw [elementEventKeys_append, elementEventKeys_element_push, elementEventKeys_nil]
        rw [ih rest (ei + 1) ec ai _ (by
              have h2 : sizeV (BSONElement.mk fk (.scalar c txt)).value = 1 := by
                rw [show (BSONElement.mk fk (.scalar c txt)).value = .scalar c txt from rfl,
                  sizeV_scalar]
              omega)
            (fun g hg => hsc g (by simp [hg]))]
        simp [StackItem.mkElem]

/-- Claim C3 counterexample: for the object stored with fields in order
b, a (both scalars), the keys seen at the visitor's onElement events are
a then b - the traverser's own sorted-set order - not the object's stored
field sequence b, a. -/
theorem claim_C3_counterexample :
    elementEventKeys (parse docBA).1 = [("a"), ("b")] ∧
    docBA.map Prod.fst = [("b"), ("a")] ∧
    ([("a"), ("b")] : List String) ≠ [("b"), ("a")] := by
  refine ⟨?_, rfl, by decide⟩
  rw [parse_docBA_run]
  rfl

/-- Claim C3 (amended): the traverser does re-order an Object's fields: it
collects the field names into a sorted set (std::set<string>) and visits one
field per distinct name, in strictly increasing lexicographic name order.
For an Object of scalar fields the key sequence seen at onElement events is
exactly that sorted name set, which contains precisely the Object's field
names; it equals the Object's own field sequence only when that sequence is
already sorted and duplicate-free. -/
theorem claim_C3 (o : BSONObj) (hscalar : ∀ kv ∈ o, kv.2.isScalar = true) :
    elementEventKeys (parse o).1 = fieldNamesSet o ∧
    (fieldNamesSet o).Pairwise strLt ∧
    (∀ k, k ∈ fieldNamesSet o ↔ k ∈ o.map Prod.fst) := by
  refine ⟨?_, pairwise_fieldNamesSet o, fun k => mem_fieldNamesSet o k⟩
  unfold parse parseRun
  simp only [parseObjectRecursive]
  simp only [List.cons_append]
  simp only [elementEventKeys_append, elementEventKeys_parseStart, elementEventKeys_objectStart,
    elementEventKeys_objectEnd, elementEventKeys_parseEnd, elementEventKeys_nil,
    List.append_nil]
  rw [fieldsLoop_scalar_keys (sizeFields o) (sortedFields o) 0 _ _ _
        (sizeFieldElems_sortedFields o) ?_]
  · rw [sortedFields_names]
  · intro f hf
    rcases mem_sortedFields o f hf with ⟨kv, hkv, hfe⟩
    rw [hfe]
    exact hscalar kv hkv

/-- Witness for claim C3 at the concrete object with stored field order
b, a. -/
theorem claim_C3_witness :
    elementEventKeys (parse docBA).1 = fieldNamesSet docBA ∧
    (fieldNamesSet docBA).Pairwise strLt ∧
    (∀ k, k ∈ fieldNamesSet docBA ↔ k ∈ docBA.map Prod.fst) :=
  claim_C3 docBA (by decide)

/-! ## Claim C4 -/

/-- Claim C4 counterexample: for the document x:[10,20], the two scalar
array elements are visited with (elementIndex, elementCount, arrayIndex,
arrayCount) = (0,1,0,2) and (0,1,1,2): the i-th element does NOT get
elementIndex i and elementCount 2 (the array length) as the claim states -
it inherits the array's own elementIndex 0 and elementCount 1 - which
differs from the claimed quadruples (0,2,0,2) and (1,2,1,2). -/
theorem claim_C4_counterexample :
    elementQuads (parse docXArr).1 = [(0, 1, 0, 2), (0, 1, 1, 2)] ∧
    ([((0 : Int), (1 : Int), (0 : Int), (2 : Int)), (0, 1, 1, 2)]
      ≠ [((0 : Int), (2 : Int), (0 : Int), (2 : Int)), (1, 2, 1, 2)]) := by
  refine ⟨?_, by decide⟩
  rw [parse_docXArr_run]
  rfl

/-- Claim C4 (amended): each element of an Array is recursively visited with
elementIndex and elementCount passed through unchanged from the Array node
itself (the array's own sibling index and sibling count - not re-based to
the element's position and the array length), while arrayIndex/arrayCount
are set to the element's position in and the length of this array: at every
event whose enclosing collection (stack item(-2)) is an ARRAY entry, the
visited entry's elementIndex/elementCount equal the array entry's, and
0 <= arrayIndex < arrayCount = the array's length.  For x:[10,20] the two
element events carry (0,1,0,2) and (0,1,1,2). -/
theorem claim_C4 :
    (∀ (o : BSONObj) (ev : ParseEvent), ev ∈ (parse o).1 → ArrayParentInherited ev) ∧
    elementQuads (parse docXArr).1 = [(0, 1, 0, 2), (0, 1, 1, 2)] := by
  refine ⟨?_, ?_⟩
  · intro o ev h
    exact eventOk_arrayParent ev (parse_events_ok o ev h)
  · rw [parse_docXArr_run]
    rfl

/-- Witness for claim C4 at a concrete event: the onElement event of the
first element of the array x in docXArr. -/
theorem claim_C4_witness :
    ArrayParentInherited ((parse docXArr).1.get ⟨3, by
      rw [parse_docXArr_run]
      decide⟩) :=
  claim_C4.1 docXArr _ (List.get_mem _ _ _)

/-! ## Claim C5 -/

/-- Claim C5 (the code bug): on any tree containing an Array -
here a:[1] - the dotted renderer fails: BSONDotNotationDump::onArrayStart
fetches the ARRAY stack entry with getElement(), whose validate(ELEMENT)
check throws the "Illegal Stack Item Type Access" logic_error, instead of
pushing the ".a" segment and succeeding as the claim states. -/
theorem claim_C5 :
    dotRender 7 ("tok") docAArr = .error ("Illegal Stack Item Type Access: ELEMENT") := by
  unfold dotRender
  rw [parse_docAArr_run]
  rfl

/-! ## Claim C6 -/

/-- Claim C6 (the code bug): for the array [1,2,3] stored under field x,
onArrayStart prints top().getArrayCount() - the count of the array enclosing
the ARRAY entry, which is 0 because the array x is not itself an array
element - so the tree renderer emits " {ARRAY[0]}", not {ARRAY[3]} as the
claim states (and no x key line is printed at all). -/
theorem claim_C6 :
    treeRender 7 (" ") ("tok") docXArr3 =
      .ok ("\ntok =>\n\x7b \x7bARRAY[0]\x7d\n  0: 1 (NumberInt/int32/16)\n  1: 2 (NumberInt/int32/16)\n  2: 3 (NumberInt/int32/16)\n\x7d") := by
  unfold treeRender
  rw [parse_docXArr3_run]
  rfl

/-! ## Claim C7 -/

/-- Claim C7 counterexample: rendering a:(b:5) with root token db.coll{0}
produces the line db.coll{0}.b: 5 (NumberInt/int32/16) - the field a
contributes no path segment (only array-enclosed objects push segments) and
the scalar is rendered as "b: 5" - which is not the claimed text
db.coll{0}.a.b 5 (NumberInt/int32/16). -/
theorem claim_C7_counterexample :
    dotRender 7 ("db.coll\x7b0\x7d") docAB5
      = .ok ("\ndb.coll\x7b0\x7d.b: 5 (NumberInt/int32/16)\n") ∧
    ("\ndb.coll\x7b0\x7d.b: 5 (NumberInt/int32/16)\n")
      ≠ ("\ndb.coll\x7b0\x7d.a.b 5 (NumberInt/int32/16)\n") := by
  refine ⟨?_, by decide⟩
  unfold dotRender
  rw [parse_docAB5_run]
  rfl

/-- Claim C7 (amended): rendering the document a:(b:5) with root token
db.coll{0} produces a leading newline and exactly one output line, whose
text is db.coll{0}. followed by the scalar's own text "b: 5" and the type
annotation - the intermediate field name a contributes no path segment,
because the dotted renderer pushes a segment only for array-enclosed objects
and for arrays. -/
theorem claim_C7 :
    dotRender 7 ("db.coll\x7b0\x7d") docAB5
      = .ok ("\ndb.coll\x7b0\x7d.b: 5 (NumberInt/int32/16)\n") ∧
    (("\ndb.coll\x7b0\x7d.b: 5 (NumberInt/int32/16)\n").data.filter
        (fun ch => ch = '\n')).length = 2 := by
  refine ⟨?_, by decide⟩
  unfold dotRender
  rw [parse_docAB5_run]
  rfl

/-! ## Claim C8 -/

/-- Claim C8 (the code bug): for the document a:[(x:1)], the scalar x -
a field of an object that is an array element - is visited with a stack
entry carrying arrayIndex = 0 and arrayCount = 0: the field loop passes the
enclosing arrayIndex to the child but leaves arrayCount at its default 0
(BSONObjectParser.hpp line 532), producing a pair that is neither the
not-array-enclosed (-1, 0) nor a consistent 0 <= arrayIndex < arrayCount,
contradicting the documented invariant of the arrayIndex/arrayCount
members. -/
theorem claim_C8 :
    elementArrayPairs (parse docArrObj).1 = [(0, 0)] ∧
    ¬ ((((0 : Int) = -1) ∧ ((0 : Int) = 0)) ∨ ((0 ≤ (0 : Int)) ∧ ((0 : Int) < 0))) := by
  refine ⟨?_, by decide⟩
  rw [parse_docArrObj_run]
  rfl

end MongoType
